import Mathlib

set_option autoImplicit false

namespace FFB

/-!
Shallow embedding of the core of `ffbookmarks-to-markdown`:
the bookmark tree (`internal/bookmarks/bookmark.go`), the output cache
(`internal/markdown`, cache file), the markdown processor
(`internal/markdown`, processor file), the web content service
(`internal/web/fetcher.go`, `github.go`, `youtube.go`, `types.go`) and the
orchestration in `cmd` main.  Filesystem and network effects are modelled by
explicit oracles (environments) and event traces; machine maps are modelled
as association lists.
-/

/-! ## Bookmark tree (internal/bookmarks/bookmark.go) -/

/-- One node of the Firefox bookmark tree (Go struct `bookmarks.Bookmark`).
`btype` is the Go field `Type` (`"folder"` or `"bookmark"`). -/
inductive Bookmark : Type where
  | node (id title btype uri : String) (deleted : Bool) (addedUnix : Int)
      (children : List Bookmark) : Bookmark

def Bookmark.id : Bookmark → String
  | .node i _ _ _ _ _ _ => i

def Bookmark.title : Bookmark → String
  | .node _ t _ _ _ _ _ => t

def Bookmark.btype : Bookmark → String
  | .node _ _ ty _ _ _ _ => ty

def Bookmark.uri : Bookmark → String
  | .node _ _ _ u _ _ _ => u

def Bookmark.deleted : Bookmark → Bool
  | .node _ _ _ _ d _ _ => d

def Bookmark.addedUnix : Bookmark → Int
  | .node _ _ _ _ _ a _ => a

def Bookmark.children : Bookmark → List Bookmark
  | .node _ _ _ _ _ _ cs => cs

/-! ## Character-level string primitives (model of the Go strings package;
defined over `List Char` so that every use is kernel-computable) -/

/-- Is the first list an initial segment of the second? -/
def chLeads : List Char → List Char → Bool
  | [], _ => true
  | _ :: _, [] => false
  | p :: ps, c :: cs => p == c && chLeads ps cs

/-- `strings.HasPrefix` / `String.startsWith`. -/
def strStarts (s pre : String) : Bool := chLeads pre.data s.data

/-- `strings.TrimSpace`: drop whitespace from both ends. -/
def strTrim (s : String) : String :=
  ⟨((s.data.dropWhile Char.isWhitespace).reverse.dropWhile Char.isWhitespace).reverse⟩

/-- `strings.ToLower` (character-wise). -/
def strLower (s : String) : String := ⟨s.data.map Char.toLower⟩

/-- Split at every occurrence of a separator character (`strings.Split` with
a one-character separator); always returns at least one piece. -/
def splitCh (sep : Char) : List Char → List (List Char)
  | [] => [[]]
  | c :: cs =>
    if c = sep then [] :: splitCh sep cs
    else (c :: (splitCh sep cs).headD []) :: (splitCh sep cs).tail

def strSplitCh (sep : Char) (s : String) : List String :=
  (splitCh sep s.data).map fun l => ⟨l⟩

/-- Split at every character satisfying `p` (the splitting underlying
`strings.Fields`). -/
def splitWhen (p : Char → Bool) : List Char → List (List Char)
  | [] => [[]]
  | c :: cs =>
    if p c then [] :: splitWhen p cs
    else
      match splitWhen p cs with
      | [] => [[c]]
      | l :: ls => (c :: l) :: ls

/-- `strings.Contains` with a one-character needle. -/
def strContainsCh (s : String) (ch : Char) : Bool := s.data.contains ch

mutual

/-- The depth-first `(path, node)` traversal of `Bookmark.All`:
a node is yielded before its children, children in stored order; a child's
path is its own title when the current path is empty, otherwise
`path ++ "/" ++ title`. -/
def collectAll : Bookmark → String → List (String × Bookmark)
  | b@(.node _ _ _ _ _ _ cs), path => (path, b) :: collectMany cs path

def collectMany : List Bookmark → String → List (String × Bookmark)
  | [], _ => []
  | c :: rest, path =>
    collectAll c (if path = "" then c.title else path ++ "/" ++ c.title)
      ++ collectMany rest path

end

/-- `Bookmark.All` as called on a folder: the traversal starts at the folder
itself with the folder's title as its path. -/
def Bookmark.all (folder : Bookmark) : List (String × Bookmark) :=
  collectAll folder folder.title

/-- The `allBookmarks` candidate sequence built in cmd main:
`x.Filter2(targetFolder.All(), ...)` keeps a pair iff no entry of the ignore
list is a string prefix of the pair's path, the node is of type `"bookmark"`
and it is not deleted. -/
def candidateSet (ignoredFoldersList : List String) (targetFolder : Bookmark) :
    List (String × Bookmark) :=
  targetFolder.all.filter fun pv =>
    (!ignoredFoldersList.any fun ignorePath => strStarts pv.1 ignorePath)
      && pv.2.btype == "bookmark" && !pv.2.deleted

/-! ## Output cache (markdown cache file, `markdown.Cache`) -/

/-- `markdown.Cache`, a Go map from bookmark ID to bookmark; modelled as an
association list where the most recent insertion comes first. -/
abbrev MDCache := List (String × Bookmark)

/-- Map lookup (`cache[id]`). -/
def cacheFind (c : MDCache) (id : String) : Option Bookmark :=
  (c.find? fun p => p.1 == id).map Prod.snd

/-- Map insertion (`cache[id] = b`); a fresh binding shadows any older one. -/
def cacheInsert (c : MDCache) (id : String) (b : Bookmark) : MDCache :=
  (id, b) :: c

/-- `Cache.CollectNewURLs`: the URLs of the given bookmarks whose id is not
in the cache, in input order. -/
def collectNewURLs (c : MDCache) (bs : List Bookmark) : List String :=
  bs.filterMap fun b => if (cacheFind c b.id).isSome then none else some b.uri

/-! ## Filename derivation (markdown processor file) -/

/-- `strings.TrimPrefix`. -/
def trimPrefixStr (s p : String) : String :=
  if strStarts s p then s.drop p.length else s

/-- Characters up to (excluding) the first occurrence of `ch`
(`strings.Index` followed by a slice). -/
def takeUntilChar (ch : Char) : List Char → List Char
  | [] => []
  | c :: cs => if c = ch then [] else c :: takeUntilChar ch cs

/-- `extractDomain`: strip an `http(s)://` scheme, keep the part before the
first `/`, strip a `www.` marker and a trailing `:port`. -/
def extractDomain (url : String) : String :=
  let url := trimPrefixStr (trimPrefixStr url "https://") "http://"
  let domain := (strSplitCh '/' url).headD ""
  let domain := trimPrefixStr domain "www."
  ⟨takeUntilChar ':' domain.data⟩

/-- `strings.Fields` followed by `strings.Join(..., " ")`: collapse
whitespace runs into single spaces and drop leading/trailing whitespace. -/
def collapseFields (s : String) : String :=
  " ".intercalate
    (((splitWhen Char.isWhitespace s.data).filter fun w => w ≠ []).map fun l => ⟨l⟩)

/-- `sanitizeFilename`: replace path-unsafe characters by spaces, collapse
whitespace, and add a `"<domain> - "` marker unless the title already starts
with the domain (case-insensitively); append `.md`. -/
def sanitizeFilename (title url : String) : String :=
  let domain := extractDomain url
  let title : String :=
    ⟨title.data.map fun ch =>
      if (['/', '\\', ':', '*', '?', '\"', '<', '>', '|'] : List Char).contains ch
      then ' ' else ch⟩
  let title := collapseFields title
  if domain ≠ "" && !(strStarts (strLower title) (strLower domain)) then
    domain ++ " - " ++ title ++ ".md"
  else
    title ++ ".md"

/-- Two-argument `filepath.Join` on already-clean segments. -/
def joinPath (a b : String) : String :=
  if a = "" then b else if b = "" then a else a ++ "/" ++ b

/-! ## Date formatting (`time.Unix(...).Format`) -/

/-- Civil date from a count of days since 1970-01-01 (proleptic Gregorian
calendar), returning (year, month, day). -/
def civilFromDays (z0 : Int) : Int × Int × Int :=
  let z := z0 + 719468
  let era := (if z ≥ 0 then z else z - 146096) / 146097
  let doe := z - era * 146097
  let yoe := (doe - doe / 1460 + doe / 36524 - doe / 146096) / 365
  let y := yoe + era * 400
  let doy := doe - (365 * yoe + yoe / 4 - yoe / 100)
  let mp := (5 * doy + 2) / 153
  let d := doy - (153 * mp + 2) / 5 + 1
  let m := mp + (if mp < 10 then 3 else -9)
  (y + (if m ≤ 2 then 1 else 0), m, d)

def padNum (width : Nat) (n : Int) : String :=
  let s := toString n.natAbs
  let s := if s.length < width then ⟨List.replicate (width - s.length) '0'⟩ ++ s else s
  if n < 0 then "-" ++ s else s

/-- `time.Unix(t, 0).Format("2006-01-02")` (UTC-normalised model). -/
def formatUnixDate (t : Int) : String :=
  let ymd := civilFromDays (Int.fdiv t 86400)
  padNum 4 ymd.1 ++ "-" ++ padNum 2 ymd.2.1 ++ "-" ++ padNum 2 ymd.2.2

/-- `time.Unix(t, 0).Format("2006")`. -/
def formatUnixYear (t : Int) : String :=
  padNum 4 (civilFromDays (Int.fdiv t 86400)).1

/-! ## Frontmatter rendering (markdown processor file, `Frontmatter.String`) -/

/-- Go struct `markdown.Frontmatter`. -/
structure Frontmatter where
  createdAt : String
  path : String
  url : String
  id : String
  description : String
  title : String
  tags : List String
deriving Repr, DecidableEq

/-- `writeKV`: emit `key: value\n`, skipping empty values. -/
def kvLine (key value : String) : String :=
  if value = "" then "" else key ++ ": " ++ value ++ "\n"

/-- `writeList`: emit `key: ["v1, v2"]\n`, skipping empty lists. -/
def listLine (key : String) (values : List String) : String :=
  if values = [] then "" else key ++ ": [\"" ++ ", ".intercalate values ++ "\"]\n"

/-- The title scalar of `Frontmatter.String`: double-quoted when the title
contains an apostrophe, single-quoted otherwise. -/
def quoteTitle (t : String) : String :=
  if strContainsCh t '\'' then "\"" ++ t ++ "\"" else "'" ++ t ++ "'"

/-- `Frontmatter.String`: the metadata block between two `---` delimiter
lines, in source order, empty fields skipped. -/
def Frontmatter.render (f : Frontmatter) : String :=
  "---\n"
    ++ kvLine "title" (quoteTitle f.title)
    ++ kvLine "url" f.url
    ++ kvLine "path" f.path
    ++ kvLine "description" f.description
    ++ kvLine "created_at" f.createdAt
    ++ kvLine "id" f.id
    ++ kvLine "cssclasses" "line3"
    ++ listLine "tags" f.tags
    ++ "---"

/-! ## Markdown processor (markdown processor file, `Processor`) -/

/-- Effect oracles for a processor run: configuration (`outputDir`,
`ignoredFolders`, a configured screenshot service base URL or `none`),
success of `os.MkdirAll` by path, the outcome of
`ContentService.FetchContent` by URL, and success of `os.WriteFile` by path
and content. -/
structure ProcEnv where
  outputDir : String
  ignoredFolders : List String
  mkdirOk : String → Bool
  fetch : String → Except String String
  writeOk : String → String → Bool
  screenshotAPI : Option String

/-- Observable per-bookmark effects of a processor run: `fetched` is an
invocation of the content resolver for the given bookmark, `wrote` a
successful file write, `loggedFailure` the `slog.Error` emitted when
`createBookmarkFile` fails (before `continue`), `inserted` the cache
insertion after a successful file creation. -/
inductive PEvent where
  | fetched (id uri : String)
  | wrote (id path : String)
  | loggedFailure (id : String)
  | inserted (id : String)
deriving Repr, DecidableEq

/-- `Processor.shouldIgnoreFolder`: the name equals some ignore-list entry
after trimming that entry. -/
def shouldIgnoreFolder (ignoredFolders : List String) (name : String) : Bool :=
  ignoredFolders.any fun ig => strTrim ig == name

/-- `ScreenshotService.GetScreenshotURL`: replace path-unsafe characters of
the source URL by `-` and wrap it into the gallery's screenshot path. -/
def getScreenshotURL (baseURL url : String) : String :=
  let path : String := ⟨url.data.map fun c =>
    if (['/', ':', '?', '=', '&', '_', '#'] : List Char).contains c then '-' else c⟩
  baseURL ++ "/screenshots/" ++ path ++ ".jpeg"

/-- The frontmatter record assembled by `createBookmarkFile`. -/
def bookmarkFrontmatter (b : Bookmark) (currentPath : String) : Frontmatter :=
  { createdAt := formatUnixDate b.addedUnix
    path := currentPath
    url := b.uri
    id := b.id
    description := ""
    title := b.title
    tags := ["bookmark"] }

/-- The full markdown file content assembled by `createBookmarkFile`:
frontmatter, an optional screenshot reference, and the fetched body. -/
def bookmarkFileContent (env : ProcEnv) (b : Bookmark) (currentPath content : String) :
    String :=
  match env.screenshotAPI with
  | none => (bookmarkFrontmatter b currentPath).render ++ "\n" ++ content ++ "\n"
  | some api =>
    (bookmarkFrontmatter b currentPath).render
      ++ "\n![Screenshot](" ++ getScreenshotURL api b.uri ++ ")\n" ++ content ++ "\n"

/-- The output file path used by `createBookmarkFile`. -/
def bookmarkFilePath (env : ProcEnv) (b : Bookmark) (currentPath : String) : String :=
  joinPath (joinPath env.outputDir currentPath) (sanitizeFilename b.title b.uri)

/-- `Processor.createBookmarkFile`: fetch the content, assemble
frontmatter + body (plus a screenshot reference when a screenshot service is
configured), and write the file.  Returns the outcome together with the
trace of events. -/
def createBookmarkFile (env : ProcEnv) (b : Bookmark) (currentPath : String) :
    Except String Unit × List PEvent :=
  match env.fetch b.uri with
  | .error e => (.error ("failed to fetch content: " ++ e), [.fetched b.id b.uri])
  | .ok content =>
    if env.writeOk (bookmarkFilePath env b currentPath)
        (bookmarkFileContent env b currentPath content) then
      (.ok (), [.fetched b.id b.uri, .wrote b.id (bookmarkFilePath env b currentPath)])
    else
      (.error "failed to write file", [.fetched b.id b.uri])

mutual

/-- `Processor.ProcessBookmarks`: ensure the directory for a non-root path
exists (fatal on failure), then handle each child of the folder in order. -/
def processBookmarks (env : ProcEnv) : Bookmark → String → MDCache →
    Except String Unit × MDCache × List PEvent
  | .node _ _ _ _ _ _ cs, currentPath, cache =>
    if currentPath ≠ "" ∧ env.mkdirOk (joinPath env.outputDir currentPath) = false then
      (.error ("failed to create directory " ++ joinPath env.outputDir currentPath),
        cache, [])
    else
      processChildren env cs currentPath cache

/-- The loop of `ProcessBookmarks` over `folder.Children`: non-deleted
bookmarks absent from the cache are materialised (a failure is logged and the
loop continues; a success inserts the id); ignored folders are skipped
entirely; other folders are processed recursively, a recursive error
aborting the loop. -/
def processChildren (env : ProcEnv) : List Bookmark → String → MDCache →
    Except String Unit × MDCache × List PEvent
  | [], _, cache => (.ok (), cache, [])
  | b :: rest, currentPath, cache =>
    if b.btype = "bookmark" ∧ b.deleted = false then
      if (cacheFind cache b.id).isSome then
        processChildren env rest currentPath cache
      else
        match createBookmarkFile env b currentPath with
        | (.error _, evs) =>
          match processChildren env rest currentPath cache with
          | (res, cache', evs') =>
            (res, cache', evs ++ PEvent.loggedFailure b.id :: evs')
        | (.ok _, evs) =>
          match processChildren env rest currentPath (cacheInsert cache b.id b) with
          | (res, cache', evs') =>
            (res, cache', evs ++ PEvent.inserted b.id :: evs')
    else if b.btype = "folder" then
      if shouldIgnoreFolder env.ignoredFolders b.title then
        processChildren env rest currentPath cache
      else
        match processBookmarks env b
            (if currentPath = "" then b.title else joinPath currentPath b.title) cache with
        | (.error e, cache', evs) =>
          (.error ("failed to process folder "
              ++ (if currentPath = "" then b.title else joinPath currentPath b.title)
              ++ ": " ++ e), cache', evs)
        | (.ok _, cache', evs) =>
          match processChildren env rest currentPath cache' with
          | (res, cache'', evs') => (res, cache'', evs ++ evs')
    else
      processChildren env rest currentPath cache

end

/-! ## Processor lemmas -/

/-- The bookmark id a processor event is about. -/
def PEvent.idOf : PEvent → String
  | .fetched i _ => i
  | .wrote i _ => i
  | .loggedFailure i => i
  | .inserted i => i

theorem createBookmarkFile_events (env : ProcEnv) (b : Bookmark) (p : String) :
    ∀ ev ∈ (createBookmarkFile env b p).2, ev.idOf = b.id := by
  unfold createBookmarkFile
  split
  · simp [PEvent.idOf]
  · split <;> simp [PEvent.idOf]

theorem cacheFind_insert (c : MDCache) (k : String) (b : Bookmark) (id : String) :
    cacheFind (cacheInsert c k b) id = if k = id then some b else cacheFind c id := by
  by_cases h : k = id <;> simp [cacheFind, cacheInsert, List.find?_cons, h]

mutual

theorem processBookmarks_skip (env : ProcEnv) (b : Bookmark) (p : String)
    (c : MDCache) (id : String) (h : (cacheFind c id).isSome = true) :
    (cacheFind (processBookmarks env b p c).2.1 id).isSome = true ∧
      ∀ ev ∈ (processBookmarks env b p c).2.2, ev.idOf ≠ id := by
  match b with
  | .node i t ty u d a cs =>
    rw [processBookmarks]
    split
    · simpa using h
    · exact processChildren_skip env cs p c id h

theorem processChildren_skip (env : ProcEnv) (bs : List Bookmark) (p : String)
    (c : MDCache) (id : String) (h : (cacheFind c id).isSome = true) :
    (cacheFind (processChildren env bs p c).2.1 id).isSome = true ∧
      ∀ ev ∈ (processChildren env bs p c).2.2, ev.idOf ≠ id := by
  match bs with
  | [] => simpa [processChildren] using h
  | b :: rest =>
    rw [processChildren]
    split
    · split
      · exact processChildren_skip env rest p c id h
      · rename_i hb hnc
        have hne : b.id ≠ id := fun heq => hnc (heq ▸ h)
        split
        · rename_i e evs heq
          split
          rename_i res cache' evs' heq'
          obtain ⟨ih1, ih2⟩ := processChildren_skip env rest p c id h
          rw [heq'] at ih1 ih2
          refine ⟨by simpa using ih1, ?_⟩
          intro ev hev
          simp only [List.mem_append, List.mem_cons] at hev
          rcases hev with hev | hev | hev
          · have := createBookmarkFile_events env b p ev (by rw [heq]; exact hev)
            exact fun hcontra => hne (this.symm.trans hcontra)
          · subst hev; simpa [PEvent.idOf] using hne
          · exact ih2 ev (by simpa using hev)
        · rename_i u evs heq
          have h' : (cacheFind (cacheInsert c b.id b) id).isSome = true := by
            rw [cacheFind_insert, if_neg hne]; exact h
          split
          rename_i res cache' evs' heq'
          obtain ⟨ih1, ih2⟩ := processChildren_skip env rest p (cacheInsert c b.id b) id h'
          rw [heq'] at ih1 ih2
          refine ⟨by simpa using ih1, ?_⟩
          intro ev hev
          simp only [List.mem_append, List.mem_cons] at hev
          rcases hev with hev | hev | hev
          · have := createBookmarkFile_events env b p ev (by rw [heq]; exact hev)
            exact fun hcontra => hne (this.symm.trans hcontra)
          · subst hev; simpa [PEvent.idOf] using hne
          · exact ih2 ev (by simpa using hev)
    · split
      · split
        · exact processChildren_skip env rest p c id h
        · split
          · rename_i e c' evs heq
            obtain ⟨ih1, ih2⟩ := processBookmarks_skip env b
              (if p = "" then b.title else joinPath p b.title) c id h
            rw [heq] at ih1 ih2
            exact ⟨by simpa using ih1, by simpa using ih2⟩
          · rename_i u c' evs heq
            obtain ⟨ih1, ih2⟩ := processBookmarks_skip env b
              (if p = "" then b.title else joinPath p b.title) c id h
            rw [heq] at ih1 ih2
            simp only at ih1 ih2
            split
            rename_i res cache'' evs' heq'
            obtain ⟨jh1, jh2⟩ := processChildren_skip env rest p c' id ih1
            rw [heq'] at jh1 jh2
            refine ⟨by simpa using jh1, ?_⟩
            intro ev hev
            simp only [List.mem_append] at hev
            rcases hev with hev | hev
            · exact ih2 ev hev
            · exact jh2 ev (by simpa using hev)
      · exact processChildren_skip env rest p c id h

end

theorem createBookmarkFile_error_events (env : ProcEnv) (b : Bookmark) (p : String)
    (e : String) (evs : List PEvent)
    (h : createBookmarkFile env b p = (.error e, evs)) :
    evs = [.fetched b.id b.uri] := by
  unfold createBookmarkFile at h
  split at h
  · exact (Prod.mk.injEq _ _ _ _ ▸ h).2.symm
  · split at h
    · simp at h
    · exact (Prod.mk.injEq _ _ _ _ ▸ h).2.symm

theorem createBookmarkFile_ok_events (env : ProcEnv) (b : Bookmark) (p : String)
    (u : Unit) (evs : List PEvent)
    (h : createBookmarkFile env b p = (.ok u, evs)) :
    evs = [.fetched b.id b.uri, .wrote b.id (bookmarkFilePath env b p)] ∧
      ∃ content, env.fetch b.uri = .ok content := by
  unfold createBookmarkFile at h
  split at h
  · simp at h
  · rename_i content hfetch
    split at h
    · exact ⟨(Prod.mk.injEq _ _ _ _ ▸ h).2.symm, content, hfetch⟩
    · simp at h


mutual

theorem processBookmarks_no_insert (env : ProcEnv) (b : Bookmark) (p : String)
    (c : MDCache) (id : String) (res : Except String Unit) (c' : MDCache)
    (evs : List PEvent) (hpc : processBookmarks env b p c = (res, c', evs))
    (h : PEvent.inserted id ∉ evs) : cacheFind c' id = cacheFind c id := by
  match b with
  | .node i t ty u d a cs =>
    rw [processBookmarks] at hpc
    split at hpc
    · cases hpc; rfl
    · exact processChildren_no_insert env cs p c id res c' evs hpc h

theorem processChildren_no_insert (env : ProcEnv) (bs : List Bookmark) (p : String)
    (c : MDCache) (id : String) (res : Except String Unit) (c' : MDCache)
    (evs : List PEvent) (hpc : processChildren env bs p c = (res, c', evs))
    (h : PEvent.inserted id ∉ evs) : cacheFind c' id = cacheFind c id := by
  match bs with
  | [] =>
    rw [processChildren] at hpc
    cases hpc; rfl
  | b :: rest =>
    rw [processChildren] at hpc
    split at hpc
    · split at hpc
      · exact processChildren_no_insert env rest p c id res c' evs hpc h
      · rcases heqc : createBookmarkFile env b p with ⟨cres, evs₀⟩
        rw [heqc] at hpc
        cases cres with
        | error e' =>
          rcases heq' : processChildren env rest p c with ⟨res₁, c₁, evs₁⟩
          rw [heq'] at hpc
          cases hpc
          have h' : PEvent.inserted id ∉ evs₁ := fun hmem => h (by simp [hmem])
          exact processChildren_no_insert env rest p c id _ _ _ heq' h'
        | ok u =>
          rcases heq' : processChildren env rest p (cacheInsert c b.id b) with
            ⟨res₁, c₁, evs₁⟩
          rw [heq'] at hpc
          cases hpc
          have hne : b.id ≠ id := fun hbid => h (by simp [hbid])
          have h' : PEvent.inserted id ∉ evs₁ := fun hmem => h (by simp [hmem])
          have hrec := processChildren_no_insert env rest p (cacheInsert c b.id b)
            id _ _ _ heq' h'
          rw [hrec, cacheFind_insert, if_neg hne]
    · split at hpc
      · split at hpc
        · exact processChildren_no_insert env rest p c id res c' evs hpc h
        · rcases heqb : processBookmarks env b
              (if p = "" then b.title else joinPath p b.title) c with ⟨bres, c₁, evs₀⟩
          rw [heqb] at hpc
          cases bres with
          | error e' =>
            cases hpc
            exact processBookmarks_no_insert env b
              (if p = "" then b.title else joinPath p b.title) c id _ _ _ heqb h
          | ok u =>
            dsimp only at hpc
            rcases heq' : processChildren env rest p c₁ with ⟨res₁, c₂, evs₁⟩
            rw [heq'] at hpc
            cases hpc
            have h1 : PEvent.inserted id ∉ evs₀ := fun hmem => h (by simp [hmem])
            have h2 : PEvent.inserted id ∉ evs₁ := fun hmem => h (by simp [hmem])
            have ha := processBookmarks_no_insert env b
              (if p = "" then b.title else joinPath p b.title) c id _ _ _ heqb h1
            have hb := processChildren_no_insert env rest p c₁ id _ _ _ heq' h2
            rw [hb, ha]
      · exact processChildren_no_insert env rest p c id res c' evs hpc h

end

mutual

theorem processBookmarks_ok (env : ProcEnv) (b : Bookmark) (p : String)
    (c : MDCache) (res : Except String Unit) (c' : MDCache) (evs : List PEvent)
    (hpc : processBookmarks env b p c = (res, c', evs))
    (h : ∀ pa, env.mkdirOk pa = true) : res = .ok () := by
  match b with
  | .node i t ty u d a cs =>
    rw [processBookmarks] at hpc
    split at hpc
    · rename_i hcond
      exact absurd (h (joinPath env.outputDir p)) (by simp [hcond.2])
    · exact processChildren_ok env cs p c res c' evs hpc h

theorem processChildren_ok (env : ProcEnv) (bs : List Bookmark) (p : String)
    (c : MDCache) (res : Except String Unit) (c' : MDCache) (evs : List PEvent)
    (hpc : processChildren env bs p c = (res, c', evs))
    (h : ∀ pa, env.mkdirOk pa = true) : res = .ok () := by
  match bs with
  | [] =>
    rw [processChildren] at hpc
    cases hpc; rfl
  | b :: rest =>
    rw [processChildren] at hpc
    split at hpc
    · split at hpc
      · exact processChildren_ok env rest p c res c' evs hpc h
      · rcases heqc : createBookmarkFile env b p with ⟨cres, evs₀⟩
        rw [heqc] at hpc
        cases cres with
        | error e' =>
          rcases heq' : processChildren env rest p c with ⟨res₁, c₁, evs₁⟩
          rw [heq'] at hpc
          cases hpc
          exact processChildren_ok env rest p c _ _ _ heq' h
        | ok u =>
          rcases heq' : processChildren env rest p (cacheInsert c b.id b) with
            ⟨res₁, c₁, evs₁⟩
          rw [heq'] at hpc
          cases hpc
          exact processChildren_ok env rest p (cacheInsert c b.id b) _ _ _ heq' h
    · split at hpc
      · split at hpc
        · exact processChildren_ok env rest p c res c' evs hpc h
        · rcases heqb : processBookmarks env b
              (if p = "" then b.title else joinPath p b.title) c with ⟨bres, c₁, evs₀⟩
          rw [heqb] at hpc
          cases bres with
          | error e' =>
            cases hpc
            have := processBookmarks_ok env b
              (if p = "" then b.title else joinPath p b.title) c _ _ _ heqb h
            simp at this
          | ok u =>
            dsimp only at hpc
            rcases heq' : processChildren env rest p c₁ with ⟨res₁, c₂, evs₁⟩
            rw [heq'] at hpc
            cases hpc
            exact processChildren_ok env rest p c₁ _ _ _ heq' h
      · exact processChildren_ok env rest p c res c' evs hpc h

end

mutual

theorem processBookmarks_failure_logged (env : ProcEnv) (b : Bookmark) (p : String)
    (c : MDCache) (id uri e : String) (res : Except String Unit) (c' : MDCache)
    (evs : List PEvent) (hpc : processBookmarks env b p c = (res, c', evs))
    (hmem : PEvent.fetched id uri ∈ evs) (herr : env.fetch uri = .error e) :
    PEvent.loggedFailure id ∈ evs := by
  match b with
  | .node i t ty u d a cs =>
    rw [processBookmarks] at hpc
    split at hpc
    · cases hpc; simp at hmem
    · exact processChildren_failure_logged env cs p c id uri e res c' evs hpc hmem herr

theorem processChildren_failure_logged (env : ProcEnv) (bs : List Bookmark) (p : String)
    (c : MDCache) (id uri e : String) (res : Except String Unit) (c' : MDCache)
    (evs : List PEvent) (hpc : processChildren env bs p c = (res, c', evs))
    (hmem : PEvent.fetched id uri ∈ evs) (herr : env.fetch uri = .error e) :
    PEvent.loggedFailure id ∈ evs := by
  match bs with
  | [] =>
    rw [processChildren] at hpc
    cases hpc; simp at hmem
  | b :: rest =>
    rw [processChildren] at hpc
    split at hpc
    · split at hpc
      · exact processChildren_failure_logged env rest p c id uri e res c' evs hpc hmem herr
      · rcases heqc : createBookmarkFile env b p with ⟨cres, evs₀⟩
        rw [heqc] at hpc
        cases cres with
        | error e' =>
          rcases heq' : processChildren env rest p c with ⟨res₁, c₁, evs₁⟩
          rw [heq'] at hpc
          cases hpc
          have hevs := createBookmarkFile_error_events env b p e' evs₀ heqc
          subst hevs
          simp only [List.cons_append, List.nil_append, List.mem_cons] at hmem ⊢
          rcases hmem with hmem | hmem | hmem
          · simp only [PEvent.fetched.injEq] at hmem
            exact Or.inr (Or.inl (by rw [hmem.1]))
          · exact absurd hmem (by simp)
          · have := processChildren_failure_logged env rest p c id uri e
              _ _ _ heq' hmem herr
            exact Or.inr (Or.inr this)
        | ok u =>
          rcases heq' : processChildren env rest p (cacheInsert c b.id b) with
            ⟨res₁, c₁, evs₁⟩
          rw [heq'] at hpc
          cases hpc
          obtain ⟨hevs, content, hok⟩ := createBookmarkFile_ok_events env b p u evs₀ heqc
          subst hevs
          simp only [List.cons_append, List.nil_append, List.mem_cons] at hmem ⊢
          rcases hmem with hmem | hmem | hmem | hmem
          · simp only [PEvent.fetched.injEq] at hmem
            rw [hmem.2] at herr
            rw [hok] at herr
            exact absurd herr (by simp)
          · exact absurd hmem (by simp)
          · exact absurd hmem (by simp)
          · have := processChildren_failure_logged env rest p (cacheInsert c b.id b)
              id uri e _ _ _ heq' hmem herr
            exact Or.inr (Or.inr (Or.inr this))
    · split at hpc
      · split at hpc
        · exact processChildren_failure_logged env rest p c id uri e res c' evs hpc hmem herr
        · rcases heqb : processBookmarks env b
              (if p = "" then b.title else joinPath p b.title) c with ⟨bres, c₁, evs₀⟩
          rw [heqb] at hpc
          cases bres with
          | error e' =>
            cases hpc
            exact processBookmarks_failure_logged env b
              (if p = "" then b.title else joinPath p b.title) c id uri e
              _ _ _ heqb hmem herr
          | ok u =>
            dsimp only at hpc
            rcases heq' : processChildren env rest p c₁ with ⟨res₁, c₂, evs₁⟩
            rw [heq'] at hpc
            cases hpc
            simp only [List.mem_append] at hmem ⊢
            rcases hmem with hmem | hmem
            · exact Or.inl (processBookmarks_failure_logged env b
                (if p = "" then b.title else joinPath p b.title) c id uri e
                _ _ _ heqb hmem herr)
            · exact Or.inr (processChildren_failure_logged env rest p c₁ id uri e
                _ _ _ heq' hmem herr)
      · exact processChildren_failure_logged env rest p c id uri e res c' evs hpc hmem herr

end

/-! ## Claim C1: skip-on-sync -/

/-- C1.  For every bookmark whose id is already present in the output cache
when the sync engine visits it, the content resolver (`FetchContent`) is
never invoked and no output file is written for that bookmark: a processor
run started with the id in the cache emits no `fetched` and no `wrote` event
for that id (the cache only grows, so an id present at the start is present
at every visit). -/
theorem skip_on_sync (env : ProcEnv) (folder : Bookmark) (currentPath : String)
    (cache : MDCache) (id : String) (h : (cacheFind cache id).isSome = true) :
    (∀ uri, PEvent.fetched id uri ∉ (processBookmarks env folder currentPath cache).2.2) ∧
      (∀ path, PEvent.wrote id path ∉ (processBookmarks env folder currentPath cache).2.2) := by
  obtain ⟨-, h2⟩ := processBookmarks_skip env folder currentPath cache id h
  constructor
  · intro uri hmem
    exact h2 _ hmem (by simp [PEvent.idOf])
  · intro pa hmem
    exact h2 _ hmem (by simp [PEvent.idOf])

def wBk1 : Bookmark := .node "b1" "T1" "bookmark" "http://example.com/a" false 1672531200 []

def wFolder1 : Bookmark := .node "root1" "toolbar" "folder" "" false 0 [wBk1]

def wEnvOk : ProcEnv :=
  { outputDir := "bookmarks", ignoredFolders := [], mkdirOk := fun _ => true,
    fetch := fun _ => .ok "body", writeOk := fun _ _ => true, screenshotAPI := none }

/-- Witness for C1 at a concrete input: the single bookmark `b1` is in the
cache, and the run emits no resolver call and no file write for it. -/
theorem skip_on_sync_witness :
    (cacheFind [("b1", wBk1)] "b1").isSome = true ∧
      ((∀ uri, PEvent.fetched "b1" uri ∉
          (processBookmarks wEnvOk wFolder1 "" [("b1", wBk1)]).2.2) ∧
        (∀ path, PEvent.wrote "b1" path ∉
          (processBookmarks wEnvOk wFolder1 "" [("b1", wBk1)]).2.2)) :=
  ⟨rfl, skip_on_sync wEnvOk wFolder1 "" [("b1", wBk1)] "b1" rfl⟩

/-! ## Claim C2: per-item failure isolation -/

/-- C2.  For every bookmark whose content resolution or file write fails
during sync — that is, whose `createBookmarkFile` returns an error, which
covers both the fetch-error branch and the failed-write branch — the loop
over its siblings logs the failure and continues with the next sibling
against the unchanged cache: the run's result, final cache and remaining
trace are exactly those of the remaining siblings, the failed creation
itself emits no insertion event, an id that is not inserted by a later
sibling keeps its original cache entry (so the bookmark is retried next
run), and when directory creation succeeds everywhere the run still ends
`ok`. -/
theorem per_item_failure_isolated (env : ProcEnv) (b : Bookmark)
    (rest : List Bookmark) (currentPath : String) (cache : MDCache)
    (e : String) (evsb : List PEvent) (res : Except String Unit)
    (cache' : MDCache) (evs' : List PEvent)
    (hb : b.btype = "bookmark") (hd : b.deleted = false)
    (hnew : cacheFind cache b.id = none)
    (hfail : createBookmarkFile env b currentPath = (.error e, evsb))
    (hrest : processChildren env rest currentPath cache = (res, cache', evs')) :
    processChildren env (b :: rest) currentPath cache
        = (res, cache', evsb ++ PEvent.loggedFailure b.id :: evs')
      ∧ PEvent.inserted b.id ∉ evsb
      ∧ (PEvent.inserted b.id ∉ evs' → cacheFind cache' b.id = cacheFind cache b.id)
      ∧ ((∀ pa, env.mkdirOk pa = true) → res = .ok ()) := by
  refine ⟨?_, ?_, ?_, ?_⟩
  · rw [processChildren, if_pos ⟨hb, hd⟩, if_neg (by rw [hnew]; simp), hfail, hrest]
  · rw [createBookmarkFile_error_events env b currentPath e evsb hfail]
    simp
  · exact fun hni =>
      processChildren_no_insert env rest currentPath cache b.id res cache' evs' hrest hni
  · exact fun hmk => processChildren_ok env rest currentPath cache res cache' evs' hrest hmk

def wBk2 : Bookmark := .node "b2" "T2" "bookmark" "http://example.com/b" false 1672531200 []

/-- An environment whose fetches succeed but whose file writes fail: the
failure mode of `createBookmarkFile` beyond a resolver error. -/
def wEnvFail : ProcEnv :=
  { outputDir := "bookmarks", ignoredFolders := [], mkdirOk := fun _ => true,
    fetch := fun _ => .ok "body", writeOk := fun _ _ => false, screenshotAPI := none }

/-- Witness for C2 at a concrete input: the single bookmark `b2` resolves
but its file write fails; the loop logs the failure, inserts nothing,
leaves the cache unchanged and still returns `ok`. -/
theorem per_item_failure_isolated_witness :
    processChildren wEnvFail [wBk2] "" []
        = (.ok (), [], [PEvent.fetched "b2" "http://example.com/b"]
            ++ PEvent.loggedFailure "b2" :: [])
      ∧ PEvent.inserted "b2" ∉ [PEvent.fetched "b2" "http://example.com/b"]
      ∧ (PEvent.inserted "b2" ∉ ([] : List PEvent) →
          cacheFind ([] : MDCache) "b2" = cacheFind ([] : MDCache) "b2")
      ∧ ((∀ pa, wEnvFail.mkdirOk pa = true) → (Except.ok () : Except String Unit) = .ok ()) :=
  per_item_failure_isolated wEnvFail wBk2 [] "" [] "failed to write file"
    [PEvent.fetched "b2" "http://example.com/b"] (.ok ()) [] []
    rfl rfl rfl rfl rfl

/-! ## Claim C3: ignore propagation -/

def c3Old : Bookmark := .node "old-id" "old" "bookmark" "http://example.com/old" false 1672531200 []

def c3Archive : Bookmark := .node "arch-id" "Archive" "folder" "" false 0 [c3Old]

def c3Toolbar : Bookmark := .node "tb-id" "toolbar" "folder" "" false 0 [c3Archive]

def c3Env : ProcEnv :=
  { outputDir := "bookmarks", ignoredFolders := ["Archive"], mkdirOk := fun _ => true,
    fetch := fun _ => .ok "body", writeOk := fun _ _ => true, screenshotAPI := none }

/-- C3 (code bug).  With ignore list `["Archive"]` and the tree
`toolbar/Archive/old`, the sync run correctly produces no events at all for
the bookmark nested under the ignored folder (no output file), but the
candidate sequence used to generate the year indexes still contains that
bookmark: its traversal path `"toolbar/Archive/old"` starts with the base
folder's title, so the ignore entry `"Archive"` is never a string prefix of
it and the main-program filter keeps the pair. -/
theorem ignored_folder_still_in_year_candidates :
    (processBookmarks c3Env c3Toolbar "" []).2.2 = [] ∧
      candidateSet ["Archive"] c3Toolbar = [("toolbar/Archive/old", c3Old)] :=
  ⟨rfl, rfl⟩

/-! ## Web content service (internal/web) -/

/-- A parsed URL (the result of `url.Parse`) together with its original
string form; `query` is the parsed query string as an ordered key/value
list. -/
structure URL where
  raw : String
  scheme : String
  host : String
  path : String
  query : List (String × String)

/-- `url.Values.Get`: the first value for the key, or `""`. -/
def queryGet (q : List (String × String)) (key : String) : String :=
  ((q.find? fun p => p.1 == key).map Prod.snd).getD ""

/-- The video-id extraction of `YouTubeFetcher.Fetch`: the `v` query
parameter for `/watch` paths on the canonical hosts, the path with its
leading slash stripped for the short-link host, empty otherwise. -/
def youtubeVideoID (u : URL) : String :=
  if u.host = "youtube.com" ∨ u.host = "www.youtube.com" then
    if u.path = "/watch" then queryGet u.query "v" else ""
  else if u.host = "youtu.be" then
    trimPrefixStr u.path "/"
  else ""

/-- The embeddable fragment synthesized by `YouTubeFetcher.Fetch`. -/
def youtubeEmbed (videoID : String) : String :=
  "<iframe width=\"560\" height=\"315\" src=\"https://www.youtube.com/embed/"
    ++ videoID
    ++ "\" frameborder=\"0\" allow=\"accelerometer; autoplay; clipboard-write; encrypted-media; gyroscope; picture-in-picture\" allowfullscreen></iframe>"

/-- `YouTubeFetcher.Fetch`: synthesize the embed fragment, or fail when no
video id can be extracted.  No network access and no cache access occur
here. -/
def youtubeFetch (u : URL) : Except String String :=
  if youtubeVideoID u = "" then .error "could not extract video ID from URL"
  else .ok (youtubeEmbed (youtubeVideoID u))

/-- The outcome of one HTTP GET: a transport error, or a status code with a
body. -/
inductive HResp where
  | err (msg : String)
  | resp (status : Nat) (body : String)
deriving Repr, DecidableEq

/-- Environment of the content service: the HTTP oracle, the optional
content cache (`nil`-able in Go), the optional cleanup collaborator, and the
extraction-service base URL. -/
structure WebEnv where
  get : String → HResp
  cache : Option (List (String × String))
  cleaner : Option (String → Except String String)
  baseURL : String

/-- Observable effects of `ContentService.FetchContent`: a cache lookup
(with its outcome), a cache store, and a network request. -/
inductive WEvent where
  | cacheGet (key : String) (hit : Bool)
  | cacheSet (key : String)
  | netGet (url : String)
deriving Repr, DecidableEq

/-! ### GitHub readme fetcher (internal/web/github.go) -/

/-- The fixed ordered candidate list of `GitHubFetcher.Fetch`. -/
def readmeFiles : List String :=
  ["README.md", "README.MD", "README.org", "Readme.md", "readme.md"]

/-- `strings.Trim(path, "/")`. -/
def trimSlashes (s : String) : String :=
  ⟨((s.data.dropWhile fun c => c = '/').reverse.dropWhile fun c => c = '/').reverse⟩

/-- The `{owner}/{repo}` path segments of a repository URL. -/
def ghParts (u : URL) : List String := strSplitCh '/' (trimSlashes u.path)

/-- The raw-content mirror base `https://raw.githubusercontent.com/{owner}/{repo}/HEAD/`. -/
def ghRawBase (u : URL) : String :=
  "https://raw.githubusercontent.com/" ++ (ghParts u).headD "" ++ "/"
    ++ ((ghParts u).drop 1).headD "" ++ "/HEAD/"

/-- The readme loop of `GitHubFetcher.Fetch`: try each candidate in order,
skip 404s without recording an error, record transport and non-200 errors
in `lastErr`, return the first 200 body, and after exhausting the list fail
wrapping the last recorded error (`nil` formats as `%!w(<nil>)`). -/
def ghLoop (env : WebEnv) (base : String) :
    List String → Option String → Except String String × List WEvent
  | [], lastErr =>
    (.error ("failed to fetch any readme file: " ++ lastErr.getD "%!w(<nil>)"), [])
  | f :: rest, lastErr =>
    match env.get (base ++ f) with
    | .err e =>
      match ghLoop env base rest (some ("failed to fetch github readme: " ++ e)) with
      | (r, evs) => (r, .netGet (base ++ f) :: evs)
    | .resp s body =>
      if s = 404 then
        match ghLoop env base rest lastErr with
        | (r, evs) => (r, .netGet (base ++ f) :: evs)
      else if s ≠ 200 then
        match ghLoop env base rest
            (some ("failed to fetch github readme: " ++ toString s)) with
        | (r, evs) => (r, .netGet (base ++ f) :: evs)
      else (.ok body, [.netGet (base ++ f)])

/-- `GitHubFetcher.Fetch`: fail when fewer than two path segments are
present, otherwise run the readme loop.  The fetched body is returned
without any transformation. -/
def ghFetch (env : WebEnv) (u : URL) : Except String String × List WEvent :=
  if (ghParts u).length < 2 then (.error "invalid GitHub URL format", [])
  else ghLoop env (ghRawBase u) readmeFiles none

/-! ### Markdown link rewriting (fixMarkdownLinks, internal/web/github.go) -/

/-- The lazy url part of the Go regular expression
`(!)?\[(.*?)\]\((.*?)\)`: the shortest run of non-newline characters
followed by `)`. -/
def matchUrl : List Char → Option (List Char × List Char)
  | [] => none
  | c :: cs =>
    if c = ')' then some ([], cs)
    else if c = '\n' then none
    else (matchUrl cs).map fun lr => (c :: lr.1, lr.2)

/-- The lazy text-then-url part after `[`: the shortest text such that `](`
follows it and a url part matches after that (backtracking extends the text
past a `](` whose url part cannot match). -/
def matchBody : List Char → Option (List Char × List Char × List Char)
  | [] => none
  | c :: cs =>
    if c = '\n' then none
    else if c = ']' ∧ cs.head? = some '(' then
      match matchUrl cs.tail with
      | some (l, r) => some ([], l, r)
      | none => (matchBody cs).map fun t => (c :: t.1, t.2)
    else (matchBody cs).map fun t => (c :: t.1, t.2)

/-- One leftmost-first match of `(!)?\[(.*?)\]\((.*?)\)` anchored at the
start of the input: the optional `!`, the link text, the link target, and
the remaining input. -/
def tryMatch (s : List Char) : Option (Bool × List Char × List Char × List Char) :=
  if s.head? = some '!' ∧ s.tail.head? = some '[' then
    (matchBody s.tail.tail).map fun t => (true, t.1, t.2.1, t.2.2)
  else if s.head? = some '[' then
    (matchBody s.tail).map fun t => (false, t.1, t.2.1, t.2.2)
  else none

/-- The skip condition of the replacement closure: targets that are data
URLs or absolute `http(s)` URLs are left alone. -/
def isAbsLink (link : List Char) : Bool :=
  chLeads "data:".data link || chLeads "http://".data link
    || chLeads "https://".data link

/-- `strings.TrimSuffix(baseURL, "/")`: drop one trailing slash. -/
def trimOneSlash (base : List Char) : List Char :=
  if base.getLast? = some '/' then base.dropLast else base

/-- Reassemble one regex match verbatim. -/
def mkMatchChars (bang : Bool) (text link : List Char) : List Char :=
  (if bang then ['!'] else []) ++ '[' :: text ++ ']' :: '(' :: link ++ [')']

/-- The replacement closure of `fixMarkdownLinks` for one match, returning
the replacement together with the base-URL state for subsequent matches
(the Go closure reassigns `baseURL` when it rewrites a relative link). -/
def rewriteMatch (base : List Char) (bang : Bool) (text link : List Char) :
    List Char × List Char :=
  if isAbsLink link then (mkMatchChars bang text link, base)
  else
    ((if bang then ['!'] else []) ++ '[' :: text ++ ']' :: '('
        :: (trimOneSlash base ++ (if chLeads ['/'] link then link else '/' :: link))
        ++ [')'],
      trimOneSlash base)

/-- The scanning loop of `regexp.ReplaceAllStringFunc`: leftmost matches,
non-overlapping, scanning resumes after each replacement.  The fuel is the
input length plus one; every step consumes at least one character, so the
fuel never runs out when the wrapper supplies it. -/
def goReplace : Nat → List Char → List Char → List Char
  | 0, _, s => s
  | _ + 1, _, [] => []
  | fuel + 1, base, c :: cs =>
    match tryMatch (c :: cs) with
    | some (bang, text, link, rest) =>
      match rewriteMatch base bang text link with
      | (out, base') => out ++ goReplace fuel base' rest
    | none => c :: goReplace fuel base cs

/-- `fixMarkdownLinks content baseURL`. -/
def fixMarkdownLinks (content baseURL : String) : String :=
  ⟨goReplace (content.data.length + 1) baseURL.data content.data⟩

/-! ### Generic markdown fetcher and cleanup (internal/web/github.go,
MarkdownFetcher) -/

/-- `url.QueryEscape`, abstracted as the identity: no claim depends on the
escaping itself, only on the request URL being a function of the source
URL. -/
def queryEscape (s : String) : String := s

/-- The extraction-service request URL built by `fetchRaw`. -/
def mdFetchURL (env : WebEnv) (u : URL) : String :=
  env.baseURL ++ "/?url=" ++ queryEscape u.raw ++ "&enableDetailedResponse=true"

/-- `strings.Join(lines, "\n")`. -/
def joinNl : List String → String
  | [] => ""
  | [l] => l
  | l :: rest => l ++ "\n" ++ joinNl rest

/-- The empty-line removal at the end of `clean`: split into lines, keep
the lines whose trimmed content is non-empty, join back. -/
def removeEmptyLines (content : String) : String :=
  joinNl ((strSplitCh '\n' content).filter fun line => strTrim line ≠ "")

/-- The base URL used by `clean` for link rewriting: the source page's
scheme, host and path. -/
def mkContentBase (u : URL) : String := u.scheme ++ "://" ++ u.host ++ u.path

/-- The optional cleanup step of `clean`: a cleanup failure degrades to the
uncleaned content. -/
def applyCleaner (cleaner : Option (String → Except String String))
    (content : String) : String :=
  match cleaner with
  | none => content
  | some f =>
    match f content with
    | .error _ => content
    | .ok cleaned => cleaned

/-- `MarkdownFetcher.clean`: rewrite relative links against the source
page's URL, optionally clean via the collaborator, then remove empty
lines. -/
def mdClean (env : WebEnv) (content : String) (u : URL) : String :=
  removeEmptyLines (applyCleaner env.cleaner (fixMarkdownLinks content (mkContentBase u)))

/-- `MarkdownFetcher.Fetch` (`fetchRaw` + `clean`). -/
def mdFetch (env : WebEnv) (u : URL) : Except String String × List WEvent :=
  match env.get (mdFetchURL env u) with
  | .err e => (.error ("error creating request: " ++ e), [.netGet (mdFetchURL env u)])
  | .resp s body =>
    if s = 200 then (.ok (mdClean env body u), [.netGet (mdFetchURL env u)])
    else (.error ("request failed with status: " ++ toString s),
      [.netGet (mdFetchURL env u)])

/-! ### Content service dispatch (internal/web/fetcher.go) -/

/-- `getURLKey`: the cache key derived from the URL string.  The SHA-256 +
base64url derivation is modelled as the identity; the claims depend only on
the key being a function of the URL string. -/
def getURLKey (u : String) : String := u

/-- The host switch of `FetchContent`. -/
def fetchDispatch (env : WebEnv) (u : URL) : Except String String × List WEvent :=
  if u.host = "youtube.com" ∨ u.host = "www.youtube.com" ∨ u.host = "youtu.be" then
    (youtubeFetch u, [])
  else if u.host = "github.com" ∨ u.host = "www.github.com" then
    ghFetch env u
  else
    mdFetch env u

/-- `ContentService.FetchContent`: when a cache is configured, first try the
cache under the URL key; on a miss (or with no cache) dispatch by host; on
success store the content back into the cache. -/
def fetchContent (env : WebEnv) (u : URL) : Except String String × List WEvent :=
  match env.cache with
  | some entries =>
    (match entries.find? fun p => p.1 == getURLKey u.raw with
    | some p => (.ok p.2, [.cacheGet (getURLKey u.raw) true])
    | none =>
      match fetchDispatch env u with
      | (.error e, evs) => (.error e, .cacheGet (getURLKey u.raw) false :: evs)
      | (.ok content, evs) =>
        (.ok content,
          .cacheGet (getURLKey u.raw) false :: (evs ++ [.cacheSet (getURLKey u.raw)])))
  | none => fetchDispatch env u

/-! ## Claim C4: repository readme resolution -/

/-- Whether a candidate readme attempt fails (no 200 response). -/
def ghFails (env : WebEnv) (base f : String) : Bool :=
  match env.get (base ++ f) with
  | .err _ => true
  | .resp s _ => s ≠ 200

/-- The error recorded by the readme loop over a list of failing
candidates: the last transport or non-404 status error, 404s skipped. -/
def ghLastErr (env : WebEnv) (base : String) :
    List String → Option String → Option String
  | [], acc => acc
  | f :: rest, acc =>
    match env.get (base ++ f) with
    | .err e => ghLastErr env base rest (some ("failed to fetch github readme: " ++ e))
    | .resp s _ =>
      if s = 404 then ghLastErr env base rest acc
      else if s ≠ 200 then
        ghLastErr env base rest (some ("failed to fetch github readme: " ++ toString s))
      else acc

theorem ghLoop_all_fail (env : WebEnv) (base : String) :
    ∀ (fs : List String) (acc : Option String),
      (∀ g ∈ fs, ghFails env base g = true) →
      (ghLoop env base fs acc).1 =
        .error ("failed to fetch any readme file: "
          ++ (ghLastErr env base fs acc).getD "%!w(<nil>)") := by
  intro fs
  induction fs with
  | nil => intro acc _; rfl
  | cons f rest ih =>
    intro acc h
    have hf : ghFails env base f = true := h f (List.mem_cons_self f rest)
    have hrest : ∀ g ∈ rest, ghFails env base g = true :=
      fun g hg => h g (List.mem_cons_of_mem f hg)
    rw [ghLoop, ghLastErr]
    cases heq : env.get (base ++ f) with
    | err e =>
      dsimp only
      rcases hl : ghLoop env base rest
        (some ("failed to fetch github readme: " ++ e)) with ⟨r, evs⟩
      have hr := ih (some ("failed to fetch github readme: " ++ e)) hrest
      rw [hl] at hr
      simpa using hr
    | resp st body =>
      rw [ghFails, heq] at hf
      dsimp only
      by_cases h404 : st = 404
      · rw [if_pos h404, if_pos h404]
        rcases hl : ghLoop env base rest acc with ⟨r, evs⟩
        have hr := ih acc hrest
        rw [hl] at hr
        simpa using hr
      · have h200 : st ≠ 200 := by simpa using hf
        rw [if_neg h404, if_neg h404, if_pos h200, if_pos h200]
        rcases hl : ghLoop env base rest
          (some ("failed to fetch github readme: " ++ toString st)) with ⟨r, evs⟩
        have hr := ih (some ("failed to fetch github readme: " ++ toString st)) hrest
        rw [hl] at hr
        simpa using hr

theorem ghLoop_first_ok (env : WebEnv) (base : String) :
    ∀ (pre : List String) (f : String) (post : List String) (body : String)
      (acc : Option String),
      (∀ g ∈ pre, ghFails env base g = true) →
      env.get (base ++ f) = .resp 200 body →
      (ghLoop env base (pre ++ f :: post) acc).1 = .ok body := by
  intro pre
  induction pre with
  | nil =>
    intro f post body acc _ hok
    rw [List.nil_append, ghLoop, hok]
    simp
  | cons g pre' ih =>
    intro f post body acc h hok
    have hg : ghFails env base g = true := h g (List.mem_cons_self g pre')
    have hpre' : ∀ g' ∈ pre', ghFails env base g' = true :=
      fun g' hg' => h g' (List.mem_cons_of_mem g hg')
    rw [List.cons_append, ghLoop]
    cases heq : env.get (base ++ g) with
    | err e =>
      dsimp only
      rcases hl : ghLoop env base (pre' ++ f :: post)
        (some ("failed to fetch github readme: " ++ e)) with ⟨r, evs⟩
      have hr := ih f post body (some ("failed to fetch github readme: " ++ e)) hpre' hok
      rw [hl] at hr
      simpa using hr
    | resp st body' =>
      rw [ghFails, heq] at hg
      dsimp only
      by_cases h404 : st = 404
      · rw [if_pos h404]
        rcases hl : ghLoop env base (pre' ++ f :: post) acc with ⟨r, evs⟩
        have hr := ih f post body acc hpre' hok
        rw [hl] at hr
        simpa using hr
      · have h200 : st ≠ 200 := by simpa using hg
        rw [if_neg h404, if_pos h200]
        rcases hl : ghLoop env base (pre' ++ f :: post)
          (some ("failed to fetch github readme: " ++ toString st)) with ⟨r, evs⟩
        have hr := ih f post body
          (some ("failed to fetch github readme: " ++ toString st)) hpre' hok
        rw [hl] at hr
        simpa using hr

/-- C4 (amended).  For a URL on the code-repository host, the resolver
derives `{owner}/{repo}` from the first two path segments, failing when
fewer than two are present; it tries the fixed ordered readme list against
the raw-content mirror and returns the body of the first 200 response
unchanged (no link rewriting); when every candidate fails it fails with the
last recorded error (the Go `nil` error formatting as `%!w(<nil>)` when
every failure was a 404). -/
theorem gh_fetch_contract (env : WebEnv) (u : URL) :
    ((ghParts u).length < 2 → ghFetch env u = (.error "invalid GitHub URL format", [])) ∧
      (∀ pre f post body, ¬(ghParts u).length < 2 →
        readmeFiles = pre ++ f :: post →
        (∀ g ∈ pre, ghFails env (ghRawBase u) g = true) →
        env.get (ghRawBase u ++ f) = .resp 200 body →
        (ghFetch env u).1 = .ok body) ∧
      (¬(ghParts u).length < 2 →
        (∀ g ∈ readmeFiles, ghFails env (ghRawBase u) g = true) →
        (ghFetch env u).1 =
          .error ("failed to fetch any readme file: "
            ++ (ghLastErr env (ghRawBase u) readmeFiles none).getD "%!w(<nil>)")) := by
  refine ⟨fun hlt => ?_, fun pre f post body hge hsplit hpre hok => ?_, fun hge hall => ?_⟩
  · rw [ghFetch, if_pos hlt]
  · rw [ghFetch, if_neg hge, hsplit]
    exact ghLoop_first_ok env (ghRawBase u) pre f post body none hpre hok
  · rw [ghFetch, if_neg hge]
    exact ghLoop_all_fail env (ghRawBase u) readmeFiles none hall

def uGH : URL := ⟨"https://github.com/octo/repo", "https", "github.com", "/octo/repo", []⟩

def envGH : WebEnv :=
  { get := fun url =>
      if url = "https://raw.githubusercontent.com/octo/repo/HEAD/README.md" then
        .resp 404 ""
      else if url = "https://raw.githubusercontent.com/octo/repo/HEAD/README.MD" then
        .resp 200 "[a](b)"
      else .resp 404 ""
    cache := none
    cleaner := none
    baseURL := "https://md.dhr.wtf" }

/-- Counterexample for C4 as stated: at `https://github.com/octo/repo`,
with `README.md` answering 404 and `README.MD` answering 200 with the body
`[a](b)`, the resolver returns the body verbatim; it does not rewrite the
relative link `b` against the repository blob base, although such a rewrite
would change the body (third conjunct shows the rewritten form). -/
theorem gh_fetch_no_rewrite_counterexample :
    (ghFetch envGH uGH).1 = .ok "[a](b)" ∧
      fixMarkdownLinks "[a](b)" "https://github.com/octo/repo/blob/HEAD/" ≠ "[a](b)" ∧
      fixMarkdownLinks "[a](b)" "https://github.com/octo/repo/blob/HEAD/" =
        "[a](https://github.com/octo/repo/blob/HEAD/b)" :=
  ⟨rfl, by decide, rfl⟩

/-- Witness for the amended C4 at a concrete input: first candidate 404,
second candidate succeeds, body returned unchanged. -/
theorem gh_fetch_contract_witness : (ghFetch envGH uGH).1 = .ok "[a](b)" :=
  (gh_fetch_contract envGH uGH).2.1 ["README.md"] "README.MD"
    ["README.org", "Readme.md", "readme.md"] "[a](b)"
    (by decide) (by decide) (by decide) (by decide)

/-! ## Claim C5: video-hosting resolution -/

/-- C5 (amended).  For every URL on a video-hosting host: no network request
is ever made; with no cache configured the result is exactly the
synthesized fetch outcome with an empty event trace; with a configured
cache the lookup precedes dispatch (so on a miss the result is still the
synthesized outcome, and the cache is read and written); the fetch fails
exactly when no video identifier can be extracted. -/
theorem video_fetch_contract (env : WebEnv) (u : URL)
    (h : u.host = "youtube.com" ∨ u.host = "www.youtube.com" ∨ u.host = "youtu.be") :
    (∀ url, WEvent.netGet url ∉ (fetchContent env u).2) ∧
      (env.cache = none → fetchContent env u = (youtubeFetch u, [])) ∧
      (∀ entries, env.cache = some entries →
        (entries.find? fun p => p.1 == getURLKey u.raw) = none →
        (fetchContent env u).1 = youtubeFetch u) ∧
      (youtubeFetch u = .error "could not extract video ID from URL" ↔
        youtubeVideoID u = "") := by
  have hd : fetchDispatch env u = (youtubeFetch u, []) := by
    rw [fetchDispatch, if_pos h]
  have hiff : youtubeFetch u = .error "could not extract video ID from URL" ↔
      youtubeVideoID u = "" := by
    rw [youtubeFetch]
    constructor
    · intro he
      by_contra hne
      rw [if_neg hne] at he
      exact absurd he (by simp)
    · intro he
      rw [if_pos he]
  cases hc : env.cache with
  | none =>
    have hres : fetchContent env u = (youtubeFetch u, []) := by
      rw [fetchContent, hc]
      dsimp only
      exact hd
    refine ⟨?_, fun _ => hres, ?_, hiff⟩
    · intro url hmem
      rw [hres] at hmem
      simp at hmem
    · intro entries hentries
      exact absurd hentries (by simp)
  | some entries =>
    cases hfind : entries.find? fun p => p.1 == getURLKey u.raw with
    | some p =>
      have hres : fetchContent env u = (.ok p.2, [.cacheGet (getURLKey u.raw) true]) := by
        rw [fetchContent, hc]
        dsimp only
        rw [hfind]
      refine ⟨?_, ?_, ?_, hiff⟩
      · intro url hmem
        rw [hres] at hmem
        simp at hmem
      · intro hnone
        exact absurd hnone (by simp)
      · intro entries' hsome hnone
        cases hsome
        rw [hfind] at hnone
        exact absurd hnone (by simp)
    | none =>
      cases hy : youtubeFetch u with
      | error e =>
        rw [hy] at hiff
        have hres : fetchContent env u = (.error e, [.cacheGet (getURLKey u.raw) false]) := by
          rw [fetchContent, hc]
          dsimp only
          rw [hfind, hd, hy]
        refine ⟨?_, ?_, ?_, hiff⟩
        · intro url hmem
          rw [hres] at hmem
          simp at hmem
        · intro hnone
          exact absurd hnone (by simp)
        · intro entries' hsome _
          cases hsome
          rw [hres]
      | ok content =>
        rw [hy] at hiff
        have hres : fetchContent env u =
            (.ok content, [.cacheGet (getURLKey u.raw) false, .cacheSet (getURLKey u.raw)]) := by
          rw [fetchContent, hc]
          dsimp only
          rw [hfind, hd, hy]
          rfl
        refine ⟨?_, ?_, ?_, hiff⟩
        · intro url hmem
          rw [hres] at hmem
          simp at hmem
        · intro hnone
          exact absurd hnone (by simp)
        · intro entries' hsome _
          cases hsome
          rw [hres]

def uYt : URL := ⟨"https://youtu.be/abc123", "https", "youtu.be", "/abc123", []⟩

def envYtHit : WebEnv :=
  { get := fun _ => HResp.err "network disabled"
    cache := some [("https://youtu.be/abc123", "CACHED")]
    cleaner := none
    baseURL := "https://md.dhr.wtf" }

def envYtMiss : WebEnv :=
  { get := fun _ => HResp.err "network disabled"
    cache := some []
    cleaner := none
    baseURL := "https://md.dhr.wtf" }

/-- Counterexample for C5 as stated: with a configured content cache,
resolving `https://youtu.be/abc123` reads the cache (returning the cached
string instead of any synthesized fragment on a hit) and, on a miss, writes
the synthesized fragment into the cache — the claim asserts no cache read
or write happens for video URLs. -/
theorem video_fetch_uses_cache_counterexample :
    fetchContent envYtHit uYt =
        (.ok "CACHED", [.cacheGet "https://youtu.be/abc123" true]) ∧
      fetchContent envYtMiss uYt =
        (.ok (youtubeEmbed "abc123"),
          [.cacheGet "https://youtu.be/abc123" false,
            .cacheSet "https://youtu.be/abc123"]) :=
  ⟨rfl, rfl⟩

def envYtNone : WebEnv :=
  { get := fun _ => HResp.err "network disabled"
    cache := none
    cleaner := none
    baseURL := "https://md.dhr.wtf" }

/-- Witness for the amended C5 at a concrete input. -/
theorem video_fetch_contract_witness :
    (uYt.host = "youtube.com" ∨ uYt.host = "www.youtube.com" ∨ uYt.host = "youtu.be") ∧
      ((∀ url, WEvent.netGet url ∉ (fetchContent envYtNone uYt).2) ∧
        (envYtNone.cache = none → fetchContent envYtNone uYt = (youtubeFetch uYt, [])) ∧
        (∀ entries, envYtNone.cache = some entries →
          (entries.find? fun p => p.1 == getURLKey uYt.raw) = none →
          (fetchContent envYtNone uYt).1 = youtubeFetch uYt) ∧
        (youtubeFetch uYt = .error "could not extract video ID from URL" ↔
          youtubeVideoID uYt = "")) :=
  ⟨by decide, video_fetch_contract envYtNone uYt (by decide)⟩

/-! ## Claim C9: link rewriting -/

theorem matchUrl_spec (link rest : List Char) (h3 : ')' ∉ link) (h4 : '\n' ∉ link) :
    matchUrl (link ++ (')' :: rest)) = some (link, rest) := by
  induction link with
  | nil => simp [matchUrl]
  | cons c cs ih =>
    simp only [List.mem_cons, not_or] at h3 h4
    rw [List.cons_append, matchUrl]
    rw [if_neg fun hc => h3.1 hc.symm, if_neg fun hc => h4.1 hc.symm,
      ih h3.2 h4.2]
    rfl

theorem matchBody_cons (c : Char) (cs : List Char) :
    matchBody (c :: cs) =
      if c = '\n' then none
      else if c = ']' ∧ cs.head? = some '(' then
        match matchUrl cs.tail with
        | some (l, r) => some ([], l, r)
        | none => (matchBody cs).map fun t => (c :: t.1, t.2)
      else (matchBody cs).map fun t => (c :: t.1, t.2) := rfl

theorem matchBody_spec (text link rest : List Char) (h1 : ']' ∉ text)
    (h2 : '\n' ∉ text) (h3 : ')' ∉ link) (h4 : '\n' ∉ link) :
    matchBody (text ++ (']' :: '(' :: (link ++ (')' :: rest)))) =
      some (text, link, rest) := by
  induction text with
  | nil =>
    rw [List.nil_append, matchBody_cons]
    rw [if_neg (by decide : ¬(']' : Char) = '\n'),
      if_pos (by simp : (']' : Char) = ']' ∧
        List.head? ('(' :: (link ++ (')' :: rest))) = some '(')]
    dsimp only [List.tail_cons]
    rw [matchUrl_spec link rest h3 h4]
  | cons c cs ih =>
    simp only [List.mem_cons, not_or] at h1 h2
    rw [List.cons_append, matchBody_cons]
    rw [if_neg fun hc => h2.1 hc.symm]
    rw [if_neg fun hand => h1.1 hand.1.symm]
    rw [ih h1.2 h2.2]
    rfl

theorem mkMatchChars_append (bang : Bool) (text link rest : List Char) :
    mkMatchChars bang text link ++ rest =
      (if bang then ['!'] else [])
        ++ ('[' :: (text ++ (']' :: '(' :: (link ++ (')' :: rest))))) := by
  cases bang <;> simp [mkMatchChars]

theorem tryMatch_spec (bang : Bool) (text link rest : List Char) (h1 : ']' ∉ text)
    (h2 : '\n' ∉ text) (h3 : ')' ∉ link) (h4 : '\n' ∉ link) :
    tryMatch (mkMatchChars bang text link ++ rest) = some (bang, text, link, rest) := by
  have hb := matchBody_spec text link rest h1 h2 h3 h4
  rw [mkMatchChars_append]
  cases bang with
  | true =>
    rw [if_pos rfl, List.singleton_append, tryMatch]
    dsimp only [List.head?_cons, List.tail_cons]
    rw [if_pos ⟨rfl, rfl⟩]
    rw [hb]
    rfl
  | false =>
    rw [if_neg (by decide), List.nil_append, tryMatch]
    dsimp only [List.head?_cons, List.tail_cons]
    rw [if_neg (by simp), if_pos rfl]
    rw [hb]
    rfl

theorem goReplace_nil (n : Nat) (base : List Char) : goReplace n base [] = [] := by
  cases n <;> rfl

theorem goReplace_cons_match (fuel : Nat) (base : List Char) (c : Char) (cs : List Char) :
    goReplace (fuel + 1) base (c :: cs) =
      match tryMatch (c :: cs) with
      | some (bang, text, link, rest) =>
        match rewriteMatch base bang text link with
        | (out, base') => out ++ goReplace fuel base' rest
      | none => c :: goReplace fuel base cs := rfl

theorem goReplace_step (fuel : Nat) (base : List Char) (c : Char) (cs : List Char)
    (bang : Bool) (text link rest : List Char)
    (hm : tryMatch (c :: cs) = some (bang, text, link, rest)) :
    goReplace (fuel + 1) base (c :: cs) =
      (rewriteMatch base bang text link).1
        ++ goReplace fuel (rewriteMatch base bang text link).2 rest := by
  rw [goReplace_cons_match, hm]

/-- A markdown document decomposed into literal text segments each followed
by one reference: a segment `(plain, bang, text, link)` renders as the
literal text followed by `(!)?[text](link)`, and a trailing literal closes
the document. -/
def renderDoc : List (List Char × Bool × List Char × List Char) → List Char → List Char
  | [], tail => tail
  | s :: rest, tail => s.1 ++ (mkMatchChars s.2.1 s.2.2.1 s.2.2.2 ++ renderDoc rest tail)

/-- The rewriting the claim promises, applied to every reference of a
decomposed document: an absolute `http(s)` or `data:` target is kept
verbatim; any other target becomes the carried base (one trailing slash
stripped) plus the target with a leading slash enforced, and such a rewrite
also strips the carried base for the references after it (the closure
reassigns `baseURL`). -/
def rewriteDoc : List Char → List (List Char × Bool × List Char × List Char) →
    List Char → List Char
  | _, [], tail => tail
  | base, s :: rest, tail =>
    if isAbsLink s.2.2.2 then
      s.1 ++ (mkMatchChars s.2.1 s.2.2.1 s.2.2.2 ++ rewriteDoc base rest tail)
    else
      s.1 ++ (((if s.2.1 then ['!'] else []) ++ '[' :: s.2.2.1 ++ ']' :: '('
          :: (trimOneSlash base
            ++ (if chLeads ['/'] s.2.2.2 then s.2.2.2 else '/' :: s.2.2.2)) ++ [')'])
        ++ rewriteDoc (trimOneSlash base) rest tail)

theorem renderDoc_nil (tail : List Char) : renderDoc [] tail = tail := rfl

theorem renderDoc_cons (s : List Char × Bool × List Char × List Char)
    (rest : List (List Char × Bool × List Char × List Char)) (tail : List Char) :
    renderDoc (s :: rest) tail
      = s.1 ++ (mkMatchChars s.2.1 s.2.2.1 s.2.2.2 ++ renderDoc rest tail) := rfl

theorem rewriteDoc_nil (base tail : List Char) : rewriteDoc base [] tail = tail := rfl

theorem rewriteDoc_cons (base : List Char) (s : List Char × Bool × List Char × List Char)
    (rest : List (List Char × Bool × List Char × List Char)) (tail : List Char) :
    rewriteDoc base (s :: rest) tail
      = if isAbsLink s.2.2.2 then
          s.1 ++ (mkMatchChars s.2.1 s.2.2.1 s.2.2.2 ++ rewriteDoc base rest tail)
        else
          s.1 ++ (((if s.2.1 then ['!'] else []) ++ '[' :: s.2.2.1 ++ ']' :: '('
              :: (trimOneSlash base
                ++ (if chLeads ['/'] s.2.2.2 then s.2.2.2 else '/' :: s.2.2.2)) ++ [')'])
            ++ rewriteDoc (trimOneSlash base) rest tail) := rfl

theorem tryMatch_none (c : Char) (cs : List Char) (h1 : c ≠ '[')
    (h2 : ¬(c = '!' ∧ cs.head? = some '[')) : tryMatch (c :: cs) = none := by
  rw [tryMatch]
  dsimp only [List.head?_cons, List.tail_cons]
  rw [if_neg fun hand => h2 ⟨Option.some.inj hand.1, hand.2⟩,
    if_neg fun hc => h1 (Option.some.inj hc)]

theorem goReplace_plain (plain : List Char) (fuel : Nat) (base s : List Char)
    (h1 : '[' ∉ plain)
    (hl : plain.getLast? = some '!' → s.head? ≠ some '[') :
    goReplace (plain.length + fuel) base (plain ++ s)
      = plain ++ goReplace fuel base s := by
  induction plain with
  | nil => simp
  | cons c cs ih =>
    simp only [List.mem_cons, not_or] at h1
    have htm : tryMatch (c :: (cs ++ s)) = none := by
      refine tryMatch_none c (cs ++ s) (fun hc => h1.1 hc.symm) ?_
      rintro ⟨hc, hhead⟩
      cases hcs : cs with
      | nil =>
        rw [hcs, List.nil_append] at hhead
        exact hl (by rw [hcs, List.getLast?_singleton, hc]) hhead
      | cons d ds =>
        rw [hcs, List.cons_append, List.head?_cons] at hhead
        have hd : d = '[' := Option.some.inj hhead
        exact h1.2 (by rw [hcs, hd]; exact List.mem_cons_self _ _)
    have hl2 : cs.getLast? = some '!' → s.head? ≠ some '[' := by
      intro hgl
      apply hl
      cases hcs : cs with
      | nil => exact absurd hgl (by simp [hcs])
      | cons d ds =>
        rw [List.getLast?_cons_cons]
        exact hcs ▸ hgl
    simp only [List.cons_append, List.length_cons]
    rw [Nat.add_right_comm, goReplace_cons_match, htm]
    dsimp only
    rw [ih h1.2 hl2]

theorem goReplace_nomatch (t : List Char) (fuel : Nat) (base : List Char)
    (h1 : '[' ∉ t) (hf : t.length ≤ fuel) :
    goReplace fuel base t = t := by
  have h := goReplace_plain t (fuel - t.length) base [] h1 (fun _ => by simp)
  rw [List.append_nil] at h
  calc goReplace fuel base t
      = goReplace (t.length + (fuel - t.length)) base t := by
        rw [Nat.add_sub_cancel' hf]
    _ = t ++ goReplace (fuel - t.length) base [] := h
    _ = t := by rw [goReplace_nil, List.append_nil]

theorem mkMatchChars_length_pos (bang : Bool) (text link : List Char) :
    1 ≤ (mkMatchChars bang text link).length := by
  cases bang <;> simp [mkMatchChars]

theorem rewriteMatch_abs (base : List Char) (bang : Bool) (text link : List Char)
    (h : isAbsLink link = true) :
    rewriteMatch base bang text link = (mkMatchChars bang text link, base) := by
  rw [rewriteMatch, if_pos h]

theorem rewriteMatch_rel (base : List Char) (bang : Bool) (text link : List Char)
    (h : isAbsLink link = false) :
    rewriteMatch base bang text link
      = ((if bang then ['!'] else []) ++ '[' :: text ++ ']' :: '('
          :: (trimOneSlash base ++ (if chLeads ['/'] link then link else '/' :: link))
          ++ [')'], trimOneSlash base) := by
  rw [rewriteMatch, if_neg (by simp [h])]

theorem goReplace_doc (segs : List (List Char × Bool × List Char × List Char))
    (tail : List Char) (base : List Char) (fuel : Nat)
    (hsegs : ∀ s ∈ segs, '[' ∉ s.1 ∧ (s.1.getLast? = some '!' → s.2.1 = true)
        ∧ ']' ∉ s.2.2.1 ∧ '\n' ∉ s.2.2.1 ∧ ')' ∉ s.2.2.2 ∧ '\n' ∉ s.2.2.2)
    (htail : '[' ∉ tail)
    (hfuel : (renderDoc segs tail).length ≤ fuel) :
    goReplace fuel base (renderDoc segs tail) = rewriteDoc base segs tail := by
  induction segs generalizing base fuel with
  | nil =>
    rw [renderDoc_nil] at hfuel
    rw [renderDoc_nil, rewriteDoc_nil]
    exact goReplace_nomatch tail fuel base htail hfuel
  | cons seg rest ih =>
    obtain ⟨hp1, hpl, h1, h2, h3, h4⟩ := hsegs seg (List.mem_cons_self seg rest)
    have hsegs' := fun s hs => hsegs s (List.mem_cons_of_mem seg hs)
    rw [renderDoc_cons] at hfuel ⊢
    simp only [List.length_append] at hfuel
    have hmkpos := mkMatchChars_length_pos seg.2.1 seg.2.2.1 seg.2.2.2
    have hl : seg.1.getLast? = some '!' →
        (mkMatchChars seg.2.1 seg.2.2.1 seg.2.2.2 ++ renderDoc rest tail).head?
          ≠ some '[' := by
      intro hlast hcontra
      rw [hpl hlast] at hcontra
      rw [show (mkMatchChars true seg.2.2.1 seg.2.2.2 ++ renderDoc rest tail).head?
          = some '!' from rfl] at hcontra
      exact absurd hcontra (by decide)
    have hsp : fuel = seg.1.length + (fuel - seg.1.length) := by omega
    rw [hsp, goReplace_plain seg.1 (fuel - seg.1.length) base
      (mkMatchChars seg.2.1 seg.2.2.1 seg.2.2.2 ++ renderDoc rest tail) hp1 hl]
    have hcc : ∃ c cs, mkMatchChars seg.2.1 seg.2.2.1 seg.2.2.2 = c :: cs := by
      cases hb : seg.2.1 with
      | false => exact ⟨'[', _, rfl⟩
      | true => exact ⟨'!', _, rfl⟩
    rcases hcc with ⟨c, cs, hcc⟩
    have hm : tryMatch (c :: (cs ++ renderDoc rest tail))
        = some (seg.2.1, seg.2.2.1, seg.2.2.2, renderDoc rest tail) := by
      have hts := tryMatch_spec seg.2.1 seg.2.2.1 seg.2.2.2 (renderDoc rest tail)
        h1 h2 h3 h4
      rwa [hcc, List.cons_append] at hts
    have hf2 : fuel - seg.1.length = (fuel - seg.1.length - 1) + 1 := by omega
    rw [hcc, List.cons_append, hf2,
      goReplace_step (fuel - seg.1.length - 1) base c (cs ++ renderDoc rest tail)
        seg.2.1 seg.2.2.1 seg.2.2.2 (renderDoc rest tail) hm]
    have hihfuel : (renderDoc rest tail).length ≤ fuel - seg.1.length - 1 := by omega
    rw [ih (rewriteMatch base seg.2.1 seg.2.2.1 seg.2.2.2).2
      (fuel - seg.1.length - 1) hsegs' hihfuel]
    by_cases habs : isAbsLink seg.2.2.2 = true
    · rw [rewriteDoc_cons, if_pos habs, rewriteMatch_abs base _ _ _ habs]
    · have habs' : isAbsLink seg.2.2.2 = false := by simpa using habs
      rw [rewriteDoc_cons, if_neg habs, rewriteMatch_rel base _ _ _ habs']

/-- C9.  Within fetched markdown — decomposed into any number of link or
image references `(!)?[text](target)` separated by reference-free literal
text — every reference whose target does not start with `http://`,
`https://` or `data:` is rewritten to the source page's scheme + host +
path (with one trailing slash stripped) concatenated with the target (with
a leading slash enforced), each such rewrite also stripping the carried
base used by subsequent references; references whose target is an absolute
URL or a data URL are left unchanged.  Well-formedness: a literal segment
contains no `[` (and ends in `!` only before an image reference, where the
`!` belongs to the reference), link text contains no `]` or newline, and a
target contains no `)` or newline. -/
theorem link_rewrite (u : URL) (segs : List (List Char × Bool × List Char × List Char))
    (tail : List Char)
    (hsegs : ∀ s ∈ segs, '[' ∉ s.1 ∧ (s.1.getLast? = some '!' → s.2.1 = true)
        ∧ ']' ∉ s.2.2.1 ∧ '\n' ∉ s.2.2.1 ∧ ')' ∉ s.2.2.2 ∧ '\n' ∉ s.2.2.2)
    (htail : '[' ∉ tail) :
    fixMarkdownLinks ⟨renderDoc segs tail⟩ (mkContentBase u)
      = ⟨rewriteDoc (mkContentBase u).data segs tail⟩ :=
  congrArg String.mk
    (goReplace_doc segs tail (mkContentBase u).data
      ((renderDoc segs tail).length + 1) hsegs htail (Nat.le_succ _))

def uW9 : URL := ⟨"https://example.com/page/", "https", "example.com", "/page/", []⟩

/-- A concrete two-reference document: a relative link inside prose, then
an absolute image whose preceding prose ends in its `!`, then a trailing
literal. -/
def wSegs9 : List (List Char × Bool × List Char × List Char) :=
  [("see ".data, false, "docs".data, "guide/intro.md".data),
    (" and".data, true, "logo".data, "https://cdn.example.com/logo.png".data)]

def wTail9 : List Char := " the end".data

/-- Witness for C9 at a concrete input: on the page
`https://example.com/page/` the relative reference is rewritten against
`https://example.com/page` (slash stripped, leading slash enforced) while
the absolute image reference is left alone. -/
theorem link_rewrite_witness :
    (∀ s ∈ wSegs9, '[' ∉ s.1 ∧ (s.1.getLast? = some '!' → s.2.1 = true)
        ∧ ']' ∉ s.2.2.1 ∧ '\n' ∉ s.2.2.1 ∧ ')' ∉ s.2.2.2 ∧ '\n' ∉ s.2.2.2)
      ∧ fixMarkdownLinks ⟨renderDoc wSegs9 wTail9⟩ (mkContentBase uW9)
        = ⟨rewriteDoc (mkContentBase uW9).data wSegs9 wTail9⟩ :=
  ⟨by decide, link_rewrite uW9 wSegs9 wTail9 (by decide) (by decide)⟩

/-! ## Claim C10: no blank lines in cleaned bodies -/

theorem splitCh_cons (sep c : Char) (cs : List Char) :
    splitCh sep (c :: cs) =
      if c = sep then [] :: splitCh sep cs
      else (c :: (splitCh sep cs).headD []) :: (splitCh sep cs).tail := rfl

theorem splitCh_ne_nil (sep : Char) (cs : List Char) : splitCh sep cs ≠ [] := by
  cases cs with
  | nil => simp [splitCh]
  | cons c cs => rw [splitCh_cons]; split <;> simp

theorem splitCh_no_sep (sep : Char) :
    ∀ (cs : List Char), ∀ l ∈ splitCh sep cs, sep ∉ l := by
  intro cs
  induction cs with
  | nil =>
    intro l hl
    simp only [splitCh, List.mem_singleton] at hl
    subst hl
    simp
  | cons c cs ih =>
    intro l hl
    rw [splitCh_cons] at hl
    by_cases hc : c = sep
    · rw [if_pos hc] at hl
      rcases List.mem_cons.mp hl with h | h
      · subst h; simp
      · exact ih l h
    · rw [if_neg hc] at hl
      cases hsp : splitCh sep cs with
      | nil => exact absurd hsp (splitCh_ne_nil sep cs)
      | cons m ms =>
        rw [hsp] at hl
        simp only [List.headD_cons, List.tail_cons] at hl
        rcases List.mem_cons.mp hl with h | h
        · subst h
          intro hmem
          rcases List.mem_cons.mp hmem with h' | h'
          · exact hc h'.symm
          · exact ih m (hsp ▸ List.mem_cons_self m ms) h'
        · exact ih l (hsp ▸ List.mem_cons_of_mem m h)

theorem splitCh_head (sep : Char) (a b : List Char) (h : sep ∉ a) :
    splitCh sep (a ++ (sep :: b)) = a :: splitCh sep b := by
  induction a with
  | nil =>
    rw [List.nil_append, splitCh_cons, if_pos rfl]
  | cons c a' ih =>
    simp only [List.mem_cons, not_or] at h
    rw [List.cons_append, splitCh_cons, if_neg fun hc => h.1 hc.symm,
      ih h.2]
    simp

theorem splitCh_single (sep : Char) (a : List Char) (h : sep ∉ a) :
    splitCh sep a = [a] := by
  induction a with
  | nil => rfl
  | cons c a' ih =>
    simp only [List.mem_cons, not_or] at h
    rw [splitCh_cons, if_neg fun hc => h.1 hc.symm, ih h.2]
    simp

theorem strSplitCh_no_sep (sep : Char) (s : String) :
    ∀ l ∈ strSplitCh sep s, sep ∉ l.data := by
  intro l hl
  rw [strSplitCh] at hl
  rcases List.mem_map.mp hl with ⟨piece, hpiece, hmk⟩
  subst hmk
  exact splitCh_no_sep sep s.data piece hpiece

theorem strSplitCh_joinNl : ∀ (ls : List String), ls ≠ [] →
    (∀ l ∈ ls, '\n' ∉ l.data) → strSplitCh '\n' (joinNl ls) = ls := by
  intro ls
  induction ls with
  | nil => intro h; contradiction
  | cons l rest ih =>
    intro _ h
    cases rest with
    | nil =>
      show strSplitCh '\n' l = [l]
      rw [strSplitCh, splitCh_single '\n' l.data (h l (List.mem_cons_self l []))]
      rfl
    | cons l2 rest2 =>
      show strSplitCh '\n' (l ++ "\n" ++ joinNl (l2 :: rest2)) = l :: l2 :: rest2
      have hdata : (l ++ "\n" ++ joinNl (l2 :: rest2)).data
          = l.data ++ ('\n' :: (joinNl (l2 :: rest2)).data) := by
        simp [String.data_append]
      rw [strSplitCh, hdata,
        splitCh_head '\n' l.data (joinNl (l2 :: rest2)).data
          (h l (List.mem_cons_self l (l2 :: rest2))), List.map_cons]
      have hrest := ih (by simp)
        (fun x hx => h x (List.mem_cons_of_mem l hx))
      rw [strSplitCh] at hrest
      rw [hrest]

/-- C10.  Every body returned by the generic page-extraction strategy
contains no empty or whitespace-only lines: after the optional cleanup
step, `clean` removes all lines whose trimmed content is empty before
returning, so the result is either empty or splits into lines that are all
non-blank. -/
theorem clean_body_no_blank_lines (env : WebEnv) (content : String) (u : URL) :
    mdClean env content u = "" ∨
      ∀ line ∈ strSplitCh '\n' (mdClean env content u), strTrim line ≠ "" := by
  rw [mdClean, removeEmptyLines]
  cases hls : (strSplitCh '\n'
      (applyCleaner env.cleaner (fixMarkdownLinks content (mkContentBase u)))).filter
      (fun line => strTrim line ≠ "") with
  | nil => left; rfl
  | cons l rest =>
    right
    have hmem : ∀ x ∈ l :: rest,
        x ∈ strSplitCh '\n'
            (applyCleaner env.cleaner (fixMarkdownLinks content (mkContentBase u))) ∧
          strTrim x ≠ "" := by
      intro x hx
      have hfil : x ∈ (strSplitCh '\n'
          (applyCleaner env.cleaner (fixMarkdownLinks content (mkContentBase u)))).filter
          (fun line => strTrim line ≠ "") := hls ▸ hx
      have h2 := List.mem_filter.mp hfil
      exact ⟨h2.1, by simpa using h2.2⟩
    have hnl : ∀ x ∈ l :: rest, '\n' ∉ x.data := fun x hx =>
      strSplitCh_no_sep '\n' _ x (hmem x hx).1
    rw [strSplitCh_joinNl (l :: rest) (by simp) hnl]
    intro line hline
    exact (hmem line hline).2

/-! ## Frontmatter parsing (model of `frontmatter.Parse` / YAML scalars)

The generated files are parsed back by the external `adrg/frontmatter`
library (a YAML parser).  The library is not part of this repository, so
the subset of YAML semantics relevant to the generated metadata block is
modelled here: a `---`-delimited block of `key: value` lines, with
single-quoted scalars (`''` escaping a quote), double-quoted scalars
(backslash escapes, of which `\"` and `\\` are accepted), and plain scalars
(surrounding spaces trimmed, ` #` starting a comment).  A malformed scalar
or line makes the whole parse fail, as a YAML error does. -/

/-- Split a line at the first `": "` into key and raw value. -/
def splitKV : List Char → Option (List Char × List Char)
  | [] => none
  | c :: cs =>
    if c = ':' ∧ cs.head? = some ' ' then some ([], cs.tail)
    else (splitKV cs).map fun kv => (c :: kv.1, kv.2)

/-- The remainder of a single-quoted scalar after its opening quote:
`''` is an escaped quote; after the closing quote only spaces may follow. -/
def singleQ : List Char → Option (List Char)
  | [] => none
  | c :: cs =>
    if c = '\'' then
      match cs with
      | [] => some []
      | c2 :: cs2 =>
        if c2 = '\'' then (singleQ cs2).map fun t => '\'' :: t
        else if cs.all fun x => x = ' ' then some [] else none
    else (singleQ cs).map fun t => c :: t

/-- The remainder of a double-quoted scalar after its opening quote:
backslash escapes `\"` and `\\` are accepted (others are errors); after the
closing quote only spaces may follow. -/
def doubleQ : List Char → Option (List Char)
  | [] => none
  | c :: cs =>
    if c = '"' then
      if cs.all fun x => x = ' ' then some [] else none
    else if c = '\\' then
      match cs with
      | [] => none
      | e :: cs' =>
        if e = '"' ∨ e = '\\' then (doubleQ cs').map fun t => e :: t
        else none
    else (doubleQ cs).map fun t => c :: t

/-- Cut a plain scalar at a ` #` comment marker. -/
def stripComment : List Char → List Char
  | [] => []
  | c :: cs =>
    if c = ' ' ∧ cs.head? = some '#' then []
    else c :: stripComment cs

/-- Parse one scalar value: quoted forms by their quote, a leading `#` as a
comment (empty scalar), otherwise a plain scalar with surrounding spaces
dropped and a ` #` comment cut off. -/
def parseScalar (raw : List Char) : Option (List Char) :=
  let v := raw.dropWhile fun c => c = ' '
  if v.head? = some '\'' then singleQ v.tail
  else if v.head? = some '"' then doubleQ v.tail
  else if v.head? = some '#' then some []
  else some (((stripComment v).reverse.dropWhile fun c => c = ' ').reverse)

/-- Assign a parsed scalar to the struct field selected by the key. -/
def applyField (fm : Frontmatter) (key : List Char) (v : String) : Frontmatter :=
  if key = "title".data then { fm with title := v }
  else if key = "url".data then { fm with url := v }
  else if key = "path".data then { fm with path := v }
  else if key = "description".data then { fm with description := v }
  else if key = "created_at".data then { fm with createdAt := v }
  else if key = "id".data then { fm with id := v }
  else fm

/-- Is the key one of the scalar struct fields? -/
def knownKey (key : List Char) : Bool :=
  key = "title".data ∨ key = "url".data ∨ key = "path".data
    ∨ key = "description".data ∨ key = "created_at".data ∨ key = "id".data

/-- Parse one `key: value` line into the accumulating record; lines with an
unknown key are skipped, malformed lines or scalars fail the parse. -/
def parseLine (fm : Frontmatter) (line : List Char) : Option Frontmatter :=
  match splitKV line with
  | none => none
  | some (key, raw) =>
    if knownKey key then
      match parseScalar raw with
      | none => none
      | some v => some (applyField fm key ⟨v⟩)
    else some fm

/-- Parse the lines of the metadata block up to the closing delimiter. -/
def parseLinesFM : List (List Char) → Frontmatter → Option Frontmatter
  | [], _ => none
  | line :: rest, fm =>
    if line = "---".data then some fm
    else
      match parseLine fm line with
      | none => none
      | some fm' => parseLinesFM rest fm'

def emptyFM : Frontmatter :=
  { createdAt := "", path := "", url := "", id := "", description := "", title := ""
    tags := [] }

/-- `frontmatter.Parse` on a whole file: the first line must be the opening
delimiter, then the block runs to the closing delimiter; everything after
it (the body) is ignored. -/
def parseFM (content : String) : Option Frontmatter :=
  match splitCh '\n' content.data with
  | [] => none
  | first :: rest =>
    if first = "---".data then parseLinesFM rest emptyFM
    else none

/-! ## Output cache construction (BuildCache, markdown cache file) -/

/-- `strings.HasSuffix`. -/
def strTrails (s suffix : String) : Bool :=
  chLeads suffix.data.reverse s.data.reverse

/-- Digits-only numeral parse. -/
def parseDigits (l : List Char) : Option Nat :=
  if l ≠ [] ∧ l.all Char.isDigit then
    some (l.foldl (fun acc c => acc * 10 + (c.toNat - 48)) 0)
  else none

/-- Days since the epoch of a civil date (inverse of `civilFromDays`). -/
def daysFromCivil (y m d : Int) : Int :=
  let y' := y - (if m ≤ 2 then 1 else 0)
  let era := (if y' ≥ 0 then y' else y' - 399) / 400
  let yoe := y' - era * 400
  let doy := (153 * (m + (if m > 2 then -3 else 9)) + 2) / 5 + d - 1
  let doe := yoe * 365 + yoe / 4 - yoe / 100 + doy
  era * 146097 + doe - 719468

/-- `parseCreatedAt`: parse `YYYY-MM-DD` into a Unix timestamp, `0` when
the string does not parse. -/
def parseCreatedAt (date : String) : Int :=
  match splitCh '-' date.data with
  | [ys, ms, ds] =>
    match parseDigits ys, parseDigits ms, parseDigits ds with
    | some y, some m, some d =>
      if 1 ≤ m ∧ m ≤ 12 ∧ 1 ≤ d ∧ d ≤ 31 then
        daysFromCivil (Int.ofNat y) (Int.ofNat m) (Int.ofNat d) * 86400
      else 0
    | _, _, _ => 0
  | _ => 0

/-- One filesystem entry seen by the `filepath.Walk` of `BuildCache`:
`access` records a walk error for the entry, `content` the outcome of
reading it. -/
structure FSEntry where
  path : String
  name : String
  isDir : Bool
  access : Option String
  content : Except String String

/-- The record (if any) that `BuildCache`'s walk callback inserts for one
entry: inaccessible entries, directories, non-`.md` names, unreadable
files, unparsable metadata and empty ids are all skipped. -/
def entryRecord (e : FSEntry) : Option (String × Bookmark) :=
  if e.access.isSome then none
  else if e.isDir then none
  else if strTrails e.name ".md" = false then none
  else
    match e.content with
    | .error _ => none
    | .ok content =>
      match parseFM content with
      | none => none
      | some m =>
        if m.id ≠ "" then
          some (m.id,
            .node m.id m.title "bookmark" m.url false (parseCreatedAt m.createdAt) [])
        else none

/-- One step of the `BuildCache` walk. -/
def buildStep (cache : MDCache) (e : FSEntry) : MDCache :=
  match entryRecord e with
  | none => cache
  | some (id, b) => cacheInsert cache id b

/-- `BuildCache`: fold the walk over the entries; the walk callback always
returns `nil`, so the build itself never fails. -/
def buildCache (files : List FSEntry) : Except String MDCache :=
  .ok (files.foldl buildStep [])

/-! ## Claim C6: building the output cache -/

theorem entryRecord_some_iff (e : FSEntry) (id : String) :
    (∃ b, entryRecord e = some (id, b)) ↔
      (e.access = none ∧ e.isDir = false ∧ strTrails e.name ".md" = true ∧
        ∃ content m, e.content = .ok content ∧ parseFM content = some m ∧
          m.id = id ∧ id ≠ "") := by
  constructor
  · rintro ⟨b, hb⟩
    rw [entryRecord] at hb
    by_cases ha : e.access.isSome
    · rw [if_pos ha] at hb; exact absurd hb (by simp)
    · rw [if_neg ha] at hb
      by_cases hd : e.isDir
      · rw [if_pos hd] at hb; exact absurd hb (by simp)
      · rw [if_neg hd] at hb
        by_cases hmd : strTrails e.name ".md" = false
        · rw [if_pos hmd] at hb; exact absurd hb (by simp)
        · rw [if_neg hmd] at hb
          cases hc : e.content with
          | error err => rw [hc] at hb; exact absurd hb (by simp)
          | ok content =>
            rw [hc] at hb
            dsimp only at hb
            cases hp : parseFM content with
            | none => rw [hp] at hb; exact absurd hb (by simp)
            | some m =>
              rw [hp] at hb
              dsimp only at hb
              by_cases hne : m.id ≠ ""
              · rw [if_pos hne] at hb
                have hb' := Option.some.inj hb
                have hid : m.id = id := congrArg Prod.fst hb'
                refine ⟨Option.not_isSome_iff_eq_none.mp ha,
                  Bool.eq_false_iff.mpr hd, ?_, content, m, rfl, hp, hid, hid ▸ hne⟩
                cases hx : strTrails e.name ".md" with
                | false => exact absurd hx hmd
                | true => rfl
              · rw [if_neg hne] at hb; exact absurd hb (by simp)
  · rintro ⟨ha, hd, hmd, content, m, hc, hp, hid, hne⟩
    refine ⟨.node m.id m.title "bookmark" m.url false (parseCreatedAt m.createdAt) [], ?_⟩
    rw [entryRecord, if_neg (by simp [ha]), if_neg (by simp [hd]),
      if_neg (by simp [hmd]), hc]
    dsimp only
    rw [hp]
    dsimp only
    rw [if_pos (hid ▸ hne), hid]

theorem buildStep_none (cache : MDCache) (e : FSEntry) (h : entryRecord e = none) :
    buildStep cache e = cache := by
  rw [buildStep, h]

theorem buildStep_some (cache : MDCache) (e : FSEntry) (id : String) (b : Bookmark)
    (h : entryRecord e = some (id, b)) :
    buildStep cache e = cacheInsert cache id b := by
  rw [buildStep, h]

theorem buildCache_foldl_find (files : List FSEntry) :
    ∀ (c0 : MDCache) (id : String),
      (cacheFind (files.foldl buildStep c0) id).isSome = true ↔
        ((cacheFind c0 id).isSome = true ∨ ∃ e ∈ files, ∃ b, entryRecord e = some (id, b)) := by
  induction files with
  | nil => intro c0 id; simp
  | cons e rest ih =>
    intro c0 id
    rw [List.foldl_cons]
    cases her : entryRecord e with
    | none =>
      rw [buildStep_none _ _ her, ih]
      simp [her]
    | some p =>
      rcases p with ⟨idn, bn⟩
      rw [buildStep_some _ _ _ _ her, ih, cacheFind_insert]
      by_cases hid : idn = id
      · subst hid
        simp [her]
      · rw [if_neg hid]
        simp only [List.mem_cons]
        constructor
        · rintro (h | h)
          · exact Or.inl h
          · rcases h with ⟨e', he', b', hb'⟩
            exact Or.inr ⟨e', Or.inr he', b', hb'⟩
        · rintro (h | h)
          · exact Or.inl h
          · rcases h with ⟨e', he', b', hb'⟩
            rcases he' with he' | he'
            · subst he'
              rw [her] at hb'
              have := (Option.some.inj hb')
              exact absurd (congrArg Prod.fst this) hid
            · exact Or.inr ⟨e', he', b', hb'⟩

/-- C6.  Building the output cache over a directory scan inserts a record,
keyed by id, for exactly those markdown-extension files whose leading
metadata block parses with a non-empty id; inaccessible or unreadable
entries, directories, other extensions, parse failures and empty ids are
skipped, and the build itself always succeeds. -/
theorem build_cache_contract (files : List FSEntry) :
    ∃ cache, buildCache files = .ok cache ∧
      ∀ id, (cacheFind cache id).isSome = true ↔
        ∃ e ∈ files, e.access = none ∧ e.isDir = false ∧
          strTrails e.name ".md" = true ∧
          ∃ content m, e.content = .ok content ∧ parseFM content = some m ∧
            m.id = id ∧ id ≠ "" := by
  refine ⟨files.foldl buildStep [], rfl, fun id => ?_⟩
  rw [buildCache_foldl_find]
  constructor
  · rintro (h | ⟨e, he, b, hb⟩)
    · simp [cacheFind] at h
    · exact ⟨e, he, (entryRecord_some_iff e id).mp ⟨b, hb⟩⟩
  · rintro ⟨e, he, hcond⟩
    rcases (entryRecord_some_iff e id).mpr hcond with ⟨b, hb⟩
    exact Or.inr ⟨e, he, b, hb⟩

/-! ## Claim C8: frontmatter round trip -/

/-- The single metadata line a non-empty value produces (none otherwise). -/
def optLine (key v : String) : List (List Char) :=
  if v = "" then [] else [key.data ++ ':' :: ' ' :: v.data]

/-- The single `tags` line a non-empty list produces (none otherwise). -/
def optListLine (key : String) (values : List String) : List (List Char) :=
  if values = [] then []
  else [key.data ++ ':' :: ' ' :: ('[' :: '"' :: (", ".intercalate values).data ++ ['"', ']'])]

/-- The metadata lines of `Frontmatter.String` between the delimiters, in
source order. -/
def renderLines (f : Frontmatter) : List (List Char) :=
  optLine "title" (quoteTitle f.title) ++ optLine "url" f.url ++ optLine "path" f.path
    ++ optLine "description" f.description ++ optLine "created_at" f.createdAt
    ++ optLine "id" f.id ++ optLine "cssclasses" "line3" ++ optListLine "tags" f.tags

/-- Join lines, terminating each with a newline, in front of a tail. -/
def flattenLines (lines : List (List Char)) (tail : List Char) : List Char :=
  lines.foldr (fun l acc => l ++ '\n' :: acc) tail

theorem flattenLines_nil (tail : List Char) : flattenLines [] tail = tail := rfl

theorem flattenLines_cons (l : List Char) (ls : List (List Char)) (tail : List Char) :
    flattenLines (l :: ls) tail = l ++ '\n' :: flattenLines ls tail := rfl

theorem flatten_append (xs ys : List (List Char)) (tail : List Char) :
    flattenLines (xs ++ ys) tail = flattenLines xs (flattenLines ys tail) := by
  simp [flattenLines, List.foldr_append]

theorem kvLine_flatten (k v : String) (rest : List Char) :
    (kvLine k v).data ++ rest = flattenLines (optLine k v) rest := by
  by_cases hv : v = ""
  · simp [kvLine, optLine, hv, flattenLines]
  · rw [kvLine, if_neg hv, optLine, if_neg hv, flattenLines]
    have h1 : (": " : String).data = [':', ' '] := rfl
    have h2 : ("\n" : String).data = ['\n'] := rfl
    simp [String.data_append, h1, h2]

theorem listLine_flatten (k : String) (values : List String) (rest : List Char) :
    (listLine k values).data ++ rest = flattenLines (optListLine k values) rest := by
  by_cases hv : values = []
  · simp [listLine, optListLine, hv, flattenLines]
  · rw [listLine, if_neg hv, optListLine, if_neg hv, flattenLines]
    have h1 : (": [\"" : String).data = [':', ' ', '[', '"'] := rfl
    have h2 : ("\"]\n" : String).data = ['"', ']', '\n'] := rfl
    simp [String.data_append, h1, h2]

theorem render_data_flatten (fm : Frontmatter) (rest : List Char) :
    fm.render.data ++ rest
      = "---".data ++ '\n' :: flattenLines (renderLines fm) ("---".data ++ rest) := by
  rw [Frontmatter.render, renderLines]
  rw [flatten_append, flatten_append, flatten_append, flatten_append, flatten_append,
    flatten_append, flatten_append]
  simp only [String.data_append, List.append_assoc]
  rw [kvLine_flatten, kvLine_flatten, kvLine_flatten, kvLine_flatten, kvLine_flatten,
    kvLine_flatten, kvLine_flatten, listLine_flatten]
  rfl

/-- Line list of the whole generated file. -/
theorem file_data_flatten (fm : Frontmatter) (body : String) :
    (fm.render ++ "\n" ++ body ++ "\n").data
      = flattenLines ("---".data :: (renderLines fm ++ ["---".data]))
          (body.data ++ ['\n']) := by
  rw [flattenLines_cons, flatten_append, flattenLines_cons, flattenLines_nil]
  have h2 : ("\n" : String).data = ['\n'] := rfl
  rw [String.data_append, String.data_append, String.data_append, h2]
  rw [List.append_assoc, List.append_assoc, List.singleton_append]
  rw [render_data_flatten fm ('\n' :: (body.data ++ ['\n']))]

theorem splitCh_flatten (lines : List (List Char)) (tail : List Char)
    (h : ∀ l ∈ lines, '\n' ∉ l) :
    splitCh '\n' (flattenLines lines tail) = lines ++ splitCh '\n' tail := by
  induction lines with
  | nil => rfl
  | cons l ls ih =>
    rw [flattenLines_cons, splitCh_head '\n' l _ (h l (List.mem_cons_self l ls)),
      ih fun x hx => h x (List.mem_cons_of_mem l hx)]
    rfl

/-! ### Scalar round-trip lemmas -/

/-- Plain-scalar safety: the value is empty (and so not even written), or it
has no newline (it must stay on one line), no `#` (no comment cut), no
surrounding spaces (YAML trims them) and no leading quote. -/
def plainSafe (s : String) : Bool :=
  s == "" ||
    (!(s.data.contains '\n') && !(s.data.contains '#')
      && !(s.data.head? == some ' ') && !(s.data.getLast? == some ' ')
      && !(s.data.head? == some '\'') && !(s.data.head? == some '"'))

/-- Title safety: no newline, and a title containing an apostrophe (which
the writer double-quotes without escaping) must contain no double quote and
no backslash. -/
def titleSafe (t : String) : Bool :=
  !(t.data.contains '\n')
    && (!(t.data.contains '\'') || (!(t.data.contains '"') && !(t.data.contains '\\')))

theorem singleQ_close (t : List Char) (h : '\'' ∉ t) :
    singleQ (t ++ ['\'']) = some t := by
  induction t with
  | nil => rfl
  | cons c ts ih =>
    simp only [List.mem_cons, not_or] at h
    rw [List.cons_append, singleQ.eq_def]
    simp only
    rw [if_neg fun hc => h.1 hc.symm, ih h.2]
    rfl

theorem doubleQ_close (t : List Char) (h1 : '"' ∉ t) (h2 : '\\' ∉ t) :
    doubleQ (t ++ ['"']) = some t := by
  induction t with
  | nil => rfl
  | cons c ts ih =>
    simp only [List.mem_cons, not_or] at h1 h2
    rw [List.cons_append, doubleQ.eq_def]
    simp only
    rw [if_neg fun hc => h1.1 hc.symm, if_neg fun hc => h2.1 hc.symm, ih h1.2 h2.2]
    rfl

theorem stripComment_id (l : List Char) (h : '#' ∉ l) : stripComment l = l := by
  induction l with
  | nil => rfl
  | cons c cs ih =>
    simp only [List.mem_cons, not_or] at h
    rw [stripComment.eq_def]
    simp only
    rw [if_neg, ih h.2]
    rintro ⟨-, hh⟩
    cases cs with
    | nil => simp at hh
    | cons d ds =>
      simp only [List.head?_cons, Option.some.injEq] at hh
      exact h.2 (hh ▸ List.mem_cons_self d ds)

theorem dropWhile_id_of_head (p : Char → Bool) (l : List Char)
    (h : ∀ c, l.head? = some c → p c = false) : l.dropWhile p = l := by
  cases l with
  | nil => rfl
  | cons c cs =>
    rw [List.dropWhile_cons, if_neg]
    simp [h c rfl]

theorem parseScalar_plain (s : String) (h : plainSafe s = true) :
    parseScalar s.data = some s.data := by
  by_cases hs0 : s = ""
  · subst hs0; rfl
  · have hb : (!(s.data.contains '\n') && !(s.data.contains '#')
        && !(s.data.head? == some ' ') && !(s.data.getLast? == some ' ')
        && !(s.data.head? == some '\'') && !(s.data.head? == some '"')) = true := by
      rw [plainSafe] at h
      rcases Bool.or_eq_true_iff.mp h with h' | h'
      · exact absurd (by simpa using h') hs0
      · exact h'
    simp only [Bool.and_eq_true, Bool.not_eq_true', beq_eq_false_iff_ne] at hb
    obtain ⟨⟨⟨⟨⟨hnl, hpound⟩, hsp1⟩, hsp2⟩, hq1⟩, hq2⟩ := hb
    have hpound' : '#' ∉ s.data := by simpa using hpound
    rw [parseScalar]
    have hdw : s.data.dropWhile (fun c => c = ' ') = s.data := by
      apply dropWhile_id_of_head
      intro c hc
      rw [hc] at hsp1
      simp only [decide_eq_false_iff_not]
      intro hcsp
      exact hsp1 (by rw [hcsp])
    rw [hdw, if_neg hq1, if_neg hq2]
    rw [if_neg]
    · rw [stripComment_id s.data hpound']
      have hrev : s.data.reverse.dropWhile (fun c => c = ' ') = s.data.reverse := by
        apply dropWhile_id_of_head
        intro c hc
        rw [List.head?_reverse] at hc
        rw [hc] at hsp2
        simp only [decide_eq_false_iff_not]
        intro hcsp
        exact hsp2 (by rw [hcsp])
      rw [hrev, List.reverse_reverse]
    · intro hh
      cases hd : s.data with
      | nil => rw [hd] at hh; exact Option.noConfusion hh
      | cons d ds =>
        rw [hd] at hh
        simp only [List.head?_cons, Option.some.injEq] at hh
        subst hh
        exact hpound' (hd ▸ List.mem_cons_self '#' ds)
  
theorem parseScalar_quoteTitle (t : String) (h : titleSafe t = true) :
    parseScalar (quoteTitle t).data = some t.data := by
  simp only [titleSafe, Bool.and_eq_true, Bool.or_eq_true, Bool.not_eq_true'] at h
  obtain ⟨hnl, hq⟩ := h
  rw [quoteTitle]
  by_cases hc : strContainsCh t '\''
  · rw [if_pos hc]
    have hmem : '\'' ∈ t.data := by simpa [strContainsCh] using hc
    have hdq : '"' ∉ t.data ∧ '\\' ∉ t.data := by
      rcases hq with hq | hq
      · exact absurd hmem (by simpa using hq)
      · exact ⟨by simpa using hq.1, by simpa using hq.2⟩
    have hdata : ("\"" ++ t ++ "\"").data = '"' :: (t.data ++ ['"']) := by
      rw [String.data_append, String.data_append]
      rfl
    rw [hdata, parseScalar]
    rw [show (('"' :: (t.data ++ ['"'])).dropWhile fun c => c = ' ')
        = '"' :: (t.data ++ ['"']) by
      rw [List.dropWhile_cons, if_neg (by simp)]]
    rw [if_neg (by simp), if_pos (by simp)]
    dsimp only [List.tail_cons]
    rw [doubleQ_close t.data hdq.1 hdq.2]
  · rw [if_neg hc]
    have hsq : '\'' ∉ t.data := by
      simpa [strContainsCh] using hc
    have hdata : ("'" ++ t ++ "'").data = '\'' :: (t.data ++ ['\'']) := by
      rw [String.data_append, String.data_append]
      rfl
    rw [hdata, parseScalar]
    rw [show (('\'' :: (t.data ++ ['\''])).dropWhile fun c => c = ' ')
        = '\'' :: (t.data ++ ['\'']) by
      rw [List.dropWhile_cons, if_neg (by simp)]]
    rw [if_pos (by simp)]
    dsimp only [List.tail_cons]
    rw [singleQ_close t.data hsq]

/-! ### Line-level parse lemmas -/

theorem splitKV_key (key v : List Char) (hk : ':' ∉ key) :
    splitKV (key ++ ':' :: ' ' :: v) = some (key, v) := by
  induction key with
  | nil => rfl
  | cons c ks ih =>
    simp only [List.mem_cons, not_or] at hk
    rw [List.cons_append, splitKV.eq_def]
    simp only
    rw [if_neg fun hand => hk.1 hand.1.symm, ih hk.2]
    rfl

theorem line_ne_dashes (key : String) (v : List Char) (hc : key.data.head? ≠ some '-') :
    key.data ++ ':' :: ' ' :: v ≠ "---".data := by
  intro heq
  cases hk : key.data with
  | nil =>
    rw [hk, List.nil_append] at heq
    have heq' : ':' :: ' ' :: v = ['-', '-', '-'] := heq
    simp at heq'
  | cons a as =>
    rw [hk, List.cons_append] at heq
    rw [hk] at hc
    have heq' : a :: (as ++ ':' :: ' ' :: v) = ['-', '-', '-'] := heq
    injection heq' with ha _
    exact hc (by rw [List.head?_cons, ha])

theorem parseLine_known (fm : Frontmatter) (key : String) (v w : List Char)
    (hk : ':' ∉ key.data) (hknown : knownKey key.data = true)
    (hs : parseScalar v = some w) :
    parseLine fm (key.data ++ ':' :: ' ' :: v) = some (applyField fm key.data ⟨w⟩) := by
  rw [parseLine, splitKV_key key.data v hk]
  simp only
  rw [if_pos hknown, hs]

theorem parseLine_unknown (fm : Frontmatter) (key : String) (v : List Char)
    (hk : ':' ∉ key.data) (hunknown : knownKey key.data = false) :
    parseLine fm (key.data ++ ':' :: ' ' :: v) = some fm := by
  rw [parseLine, splitKV_key key.data v hk]
  simp only
  rw [if_neg]
  simp [hunknown]

theorem parseLinesFM_step (line : List Char) (rest : List (List Char)) (fm fm' : Frontmatter)
    (hne : line ≠ "---".data) (hp : parseLine fm line = some fm') :
    parseLinesFM (line :: rest) fm = parseLinesFM rest fm' := by
  rw [parseLinesFM.eq_def]
  simp only
  rw [if_neg hne, hp]

theorem parseLinesFM_close (rest : List (List Char)) (fm : Frontmatter) :
    parseLinesFM ("---".data :: rest) fm = some fm := by
  rw [parseLinesFM.eq_def]
  simp

theorem parseLinesFM_field (key v : String) (rest : List (List Char)) (fm : Frontmatter)
    (w : List Char) (hk : ':' ∉ key.data) (hknown : knownKey key.data = true)
    (hs : parseScalar v.data = some w) (hc : key.data.head? ≠ some '-')
    (hfm : v = "" → applyField fm key.data ⟨w⟩ = fm) :
    parseLinesFM (optLine key v ++ rest) fm
      = parseLinesFM rest (applyField fm key.data ⟨w⟩) := by
  by_cases hv : v = ""
  · rw [optLine, if_pos hv, List.nil_append, hfm hv]
  · rw [optLine, if_neg hv, List.singleton_append,
      parseLinesFM_step _ _ _ _ (line_ne_dashes key v.data hc)
        (parseLine_known fm key v.data w hk hknown hs)]

theorem parseLinesFM_skipline (key : String) (v : List Char) (rest : List (List Char))
    (fm : Frontmatter) (hk : ':' ∉ key.data) (hunknown : knownKey key.data = false)
    (hc : key.data.head? ≠ some '-') :
    parseLinesFM ((key.data ++ ':' :: ' ' :: v) :: rest) fm = parseLinesFM rest fm :=
  parseLinesFM_step _ _ _ _ (line_ne_dashes key v hc) (parseLine_unknown fm key v hk hunknown)

theorem optLine_mem (k v : String) (l : List Char) (hl : l ∈ optLine k v) :
    l = k.data ++ ':' :: ' ' :: v.data := by
  rw [optLine] at hl
  by_cases hv : v = ""
  · rw [if_pos hv] at hl; simp at hl
  · rw [if_neg hv] at hl; simpa using hl

theorem optLine_no_nl (k v : String) (hkk : '\n' ∉ k.data) (hv : '\n' ∉ v.data) :
    ∀ l ∈ optLine k v, '\n' ∉ l := by
  intro l hl hmem
  rw [optLine_mem k v l hl] at hmem
  simp only [List.mem_append, List.mem_cons] at hmem
  rcases hmem with h | h | h | h
  · exact hkk h
  · exact absurd h (by decide)
  · exact absurd h (by decide)
  · exact hv h

theorem plainSafe_no_nl (s : String) (h : plainSafe s = true) : '\n' ∉ s.data := by
  simp only [plainSafe, Bool.or_eq_true, Bool.and_eq_true, Bool.not_eq_true'] at h
  rcases h with h' | h'
  · have hs0 : s = "" := by simpa using h'
    rw [hs0]; decide
  · simpa using h'.1.1.1.1.1

theorem titleSafe_no_nl (t : String) (h : titleSafe t = true) : '\n' ∉ t.data := by
  simp only [titleSafe, Bool.and_eq_true, Bool.not_eq_true'] at h
  simpa using h.1

theorem quoteTitle_no_nl (t : String) (h : '\n' ∉ t.data) :
    '\n' ∉ (quoteTitle t).data := by
  rw [quoteTitle]
  by_cases hc : strContainsCh t '\''
  · rw [if_pos hc]
    intro hmem
    rw [String.data_append, String.data_append] at hmem
    rcases List.mem_append.mp hmem with h0 | h0
    · rcases List.mem_append.mp h0 with h1 | h1
      · exact absurd h1 (by decide)
      · exact h h1
    · exact absurd h0 (by decide)
  · rw [if_neg hc]
    intro hmem
    rw [String.data_append, String.data_append] at hmem
    rcases List.mem_append.mp hmem with h0 | h0
    · rcases List.mem_append.mp h0 with h1 | h1
      · exact absurd h1 (by decide)
      · exact h h1
    · exact absurd h0 (by decide)

theorem quoteTitle_ne (t : String) : quoteTitle t ≠ "" := by
  rw [quoteTitle]
  by_cases hc : strContainsCh t '\''
  · rw [if_pos hc]
    intro h
    have hd := congrArg String.data h
    rw [String.data_append, String.data_append] at hd
    simp at hd
  · rw [if_neg hc]
    intro h
    have hd := congrArg String.data h
    rw [String.data_append, String.data_append] at hd
    simp at hd

/-- C8 counterexample input: a title mixing an apostrophe with double
quotes.  The writer picks double quotes because of the apostrophe but does
not escape the embedded double quotes, so the generated metadata block is
malformed YAML. -/
def fmBad : Frontmatter :=
  { title := "it's \"quoted\"", url := "https://example.com", path := "toolbar"
    description := "", createdAt := "2024-01-02T03:04:05Z", id := "b1"
    tags := ["bookmark"] }

/-- C8 counterexample: the claim promises the round trip for arbitrary
titles including those containing quote characters, but a title containing
both an apostrophe and a double quote produces a file whose metadata block
fails to parse at all. -/
theorem frontmatter_round_trip_counterexample :
    parseFM (fmBad.render ++ "\n" ++ "body" ++ "\n") = none := rfl

/-- C8 (amended): re-parsing the metadata block of a generated file yields
the same title, url and id that were used to produce it, provided the title
does not mix the two quote kinds (no double quote or backslash when it
contains an apostrophe) and the other scalar fields are plain-safe (no
newline, no `#`, no surrounding spaces, no leading quote). -/
theorem frontmatter_round_trip (fm : Frontmatter) (body : String)
    (htitle : titleSafe fm.title = true)
    (hurl : plainSafe fm.url = true) (hpath : plainSafe fm.path = true)
    (hdesc : plainSafe fm.description = true) (hcreated : plainSafe fm.createdAt = true)
    (hid : plainSafe fm.id = true) (htags : fm.tags = ["bookmark"]) :
    ∃ m, parseFM (fm.render ++ "\n" ++ body ++ "\n") = some m
      ∧ m.title = fm.title ∧ m.url = fm.url ∧ m.id = fm.id := by
  have hnoNL : ∀ l ∈ ("---".data :: (renderLines fm ++ ["---".data])), '\n' ∉ l := by
    intro l hl
    rcases List.mem_cons.mp hl with rfl | hl
    · decide
    rcases List.mem_append.mp hl with hl | hl
    · rw [renderLines, htags] at hl
      simp only [List.mem_append] at hl
      rcases hl with ((((((h | h) | h) | h) | h) | h) | h) | h
      · exact optLine_no_nl _ _ (by decide)
          (quoteTitle_no_nl _ (titleSafe_no_nl _ htitle)) l h
      · exact optLine_no_nl _ _ (by decide) (plainSafe_no_nl _ hurl) l h
      · exact optLine_no_nl _ _ (by decide) (plainSafe_no_nl _ hpath) l h
      · exact optLine_no_nl _ _ (by decide) (plainSafe_no_nl _ hdesc) l h
      · exact optLine_no_nl _ _ (by decide) (plainSafe_no_nl _ hcreated) l h
      · exact optLine_no_nl _ _ (by decide) (plainSafe_no_nl _ hid) l h
      · exact optLine_no_nl "cssclasses" "line3" (by decide) (by decide) l h
      · have hl' : l = "tags".data ++ ':' :: ' ' ::
            ('[' :: '"' :: (", ".intercalate ["bookmark"]).data ++ ['"', ']']) := by
          simpa [optListLine] using h
        rw [hl']
        decide
    · have hl' : l = "---".data := by simpa using hl
      rw [hl']
      decide
  have hsplit : splitCh '\n' (fm.render ++ "\n" ++ body ++ "\n").data
      = "---".data
          :: ((renderLines fm ++ ["---".data]) ++ splitCh '\n' (body.data ++ ['\n'])) := by
    rw [file_data_flatten fm body, splitCh_flatten _ _ hnoNL, List.cons_append]
  have hparse : parseFM (fm.render ++ "\n" ++ body ++ "\n")
      = some (applyField (applyField (applyField (applyField (applyField (applyField
          emptyFM "title".data ⟨fm.title.data⟩) "url".data ⟨fm.url.data⟩)
          "path".data ⟨fm.path.data⟩) "description".data ⟨fm.description.data⟩)
          "created_at".data ⟨fm.createdAt.data⟩) "id".data ⟨fm.id.data⟩) := by
    rw [parseFM, hsplit]
    simp only
    rw [if_pos trivial, List.append_assoc, List.singleton_append, renderLines, htags]
    simp only [List.append_assoc]
    rw [parseLinesFM_field "title" (quoteTitle fm.title) _ _ fm.title.data (by decide)
      (by decide) (parseScalar_quoteTitle fm.title htitle) (by decide)
      (fun hv => absurd hv (quoteTitle_ne fm.title))]
    rw [parseLinesFM_field "url" fm.url _ _ fm.url.data (by decide) (by decide)
      (parseScalar_plain fm.url hurl) (by decide) (by intro hv; rw [hv]; rfl)]
    rw [parseLinesFM_field "path" fm.path _ _ fm.path.data (by decide) (by decide)
      (parseScalar_plain fm.path hpath) (by decide) (by intro hv; rw [hv]; rfl)]
    rw [parseLinesFM_field "description" fm.description _ _ fm.description.data (by decide)
      (by decide) (parseScalar_plain fm.description hdesc) (by decide)
      (by intro hv; rw [hv]; rfl)]
    rw [parseLinesFM_field "created_at" fm.createdAt _ _ fm.createdAt.data (by decide)
      (by decide) (parseScalar_plain fm.createdAt hcreated) (by decide)
      (by intro hv; rw [hv]; rfl)]
    rw [parseLinesFM_field "id" fm.id _ _ fm.id.data (by decide) (by decide)
      (parseScalar_plain fm.id hid) (by decide) (by intro hv; rw [hv]; rfl)]
    rw [show optLine "cssclasses" "line3"
        = ["cssclasses".data ++ ':' :: ' ' :: "line3".data] from rfl,
      List.singleton_append,
      parseLinesFM_skipline "cssclasses" ("line3".data) _ _ (by decide) (by decide)
        (by decide)]
    rw [show optListLine "tags" ["bookmark"]
        = ["tags".data ++ ':' :: ' ' ::
            ('[' :: '"' :: (", ".intercalate ["bookmark"]).data ++ ['"', ']'])] from rfl,
      List.singleton_append,
      parseLinesFM_skipline "tags" _ _ _ (by decide) (by decide) (by decide)]
    rw [parseLinesFM_close]
  exact ⟨_, hparse, rfl, rfl, rfl⟩

/-- A well-behaved frontmatter record for the round-trip witness. -/
def fmGood : Frontmatter :=
  { title := "Alice's notes", url := "https://example.com/a", path := "toolbar/dev"
    description := "", createdAt := "2024-03-04T05:06:07Z", id := "abc123"
    tags := ["bookmark"] }

/-- Witness for C8: the amended round trip at a concrete record whose title
contains an apostrophe. -/
theorem frontmatter_round_trip_witness :
    ∃ m, parseFM (fmGood.render ++ "\n" ++ "body line" ++ "\n") = some m
      ∧ m.title = fmGood.title ∧ m.url = fmGood.url ∧ m.id = fmGood.id :=
  frontmatter_round_trip fmGood "body line" (by decide) (by decide) (by decide)
    (by decide) (by decide) (by decide) rfl

/-! ## Claim C7: screenshot service failures in cmd main

Model of `main` from the `GetExistingScreenshots` call onward: the gallery
query and the batch submit are oracle results, the markdown cache is built
from the directory entries, bookmarks are processed and the year indexes
written.  `os.Exit(1)` paths surface as the `exited 1` outcome. -/

/-- `GetExistingScreenshots` post-processing: the URLs of the non-failed
gallery results. -/
def screenshotsOf (gallery : List (String × Bool)) : List String :=
  (gallery.filter fun r => !r.2).map Prod.fst

/-- Observable events of a `main` run: a batch submission, the `slog.Error`
for a failed submission, a processor event, a written year index. -/
inductive MEvent where
  | submitted (urls : List String)
  | submitFailureLogged (err : String)
  | procEv (e : PEvent)
  | wroteYear (year : String)
deriving Repr, DecidableEq

def MEvent.isSubmitLog : MEvent → Bool
  | .submitFailureLogged _ => true
  | _ => false

/-- How a `main` run ends. -/
inductive MainOutcome where
  | exited (code : Nat)
  | completed
deriving Repr, DecidableEq

/-- The submission step of `main`: a non-empty URL list is submitted, and a
submission error is only logged. -/
def submitEvents (submitRes : Except String Unit) (urls : List String) : List MEvent :=
  if urls = [] then []
  else
    MEvent.submitted urls ::
      (match submitRes with
       | .ok _ => []
       | .error err => [MEvent.submitFailureLogged err])

/-- The content of a year index file (`CreateYearIndexes`). -/
def yearIndexContent (year : String) : String :=
  "---\ncssclasses: [\"line3\"]\n---\n```dataview\nTABLE path, url, dateformat(created_at, \"dd.MM\") as \"date\"\nFROM #bookmark\nWHERE dateformat(created_at, \"yyyy\") = \""
    ++ year ++ "\"\nSORT created_at DESC\n```\n"

/-- The distinct years of the given bookmarks (`CreateYearIndexes` collects
them into a set). -/
def yearsOf (bs : List Bookmark) : List String :=
  (bs.map fun b => formatUnixYear b.addedUnix).dedup

/-- The write loop of `CreateYearIndexes`: a failed write aborts with an
error, successful writes are recorded. -/
def writeYearIndexes (env : ProcEnv) : List String → Except String Unit × List MEvent
  | [] => (.ok (), [])
  | y :: ys =>
    if env.writeOk (joinPath env.outputDir (y ++ ".md")) (yearIndexContent y) then
      match writeYearIndexes env ys with
      | (r, evs) => (r, MEvent.wroteYear y :: evs)
    else (.error ("failed to write year index " ++ y), [])

/-- Oracles and inputs of a `main` run: the gallery query result, the batch
submit result, the output-directory entries, the target folder, the parsed
ignore list, and the processor oracles. -/
structure MainEnv where
  gallery : Except String (List (String × Bool))
  submitRes : Except String Unit
  files : List FSEntry
  folder : Bookmark
  ignoredFoldersList : List String
  penv : ProcEnv

/-- The URLs filtered for submission: new URLs not already captured. -/
def newScreenshotURLs (env : MainEnv) (mdCache : MDCache)
    (gallery : List (String × Bool)) : List String :=
  (collectNewURLs mdCache
      ((candidateSet env.ignoredFoldersList env.folder).map Prod.snd)).filter
    fun u => !(screenshotsOf gallery).contains u

/-- The tail of `main` after the submission step: `ProcessBookmarks` (fatal
on error) then `CreateYearIndexes` (fatal on error). -/
def runRest (env : MainEnv) (mdCache : MDCache) : MainOutcome × List MEvent :=
  match processBookmarks env.penv env.folder "" mdCache with
  | (.error _, _, evs) => (.exited 1, evs.map MEvent.procEv)
  | (.ok _, _, evs) =>
    match writeYearIndexes env.penv
        (yearsOf ((candidateSet env.ignoredFoldersList env.folder).map Prod.snd)) with
    | (.error _, yevs) => (.exited 1, evs.map MEvent.procEv ++ yevs)
    | (.ok _, yevs) => (.completed, evs.map MEvent.procEv ++ yevs)

/-- `main` from the `GetExistingScreenshots` call onward: a gallery error
exits with code 1 before anything else happens; a cache build error exits
with code 1; then URLs are submitted (a submit error only logged) and the
run continues with processing and year indexes. -/
def runMain (env : MainEnv) : MainOutcome × List MEvent :=
  match env.gallery with
  | .error _ => (.exited 1, [])
  | .ok gallery =>
    match buildCache env.files with
    | .error _ => (.exited 1, [])
    | .ok mdCache =>
      match runRest env mdCache with
      | (out, evs) =>
        (out, submitEvents env.submitRes (newScreenshotURLs env mdCache gallery) ++ evs)

theorem submitEvents_filter (r : Except String Unit) (urls : List String) :
    (submitEvents r urls).filter (fun ev => ! ev.isSubmitLog)
      = if urls = [] then [] else [MEvent.submitted urls] := by
  rw [submitEvents.eq_def]
  by_cases hu : urls = []
  · rw [if_pos hu, if_pos hu]
    rfl
  · rw [if_neg hu, if_neg hu]
    cases r <;> rfl

/-- A benign run configuration: one fresh bookmark in the target folder,
all file-system and network oracles succeeding, no configured screenshots
yet. -/
def c7Penv : ProcEnv :=
  { outputDir := "out", ignoredFolders := [], mkdirOk := fun _ => true
    fetch := fun _ => .ok "content", writeOk := fun _ _ => true
    screenshotAPI := none }

def c7Folder : Bookmark :=
  .node "fid" "toolbar" "folder" "" false 0
    [.node "b1" "Example" "bookmark" "https://example.com" false 1704067200 []]

def c7EnvOk : MainEnv :=
  { gallery := .ok [], submitRes := .ok (), files := [], folder := c7Folder
    ignoredFoldersList := [], penv := c7Penv }

def c7EnvFail : MainEnv :=
  { c7EnvOk with gallery := .error "gallery query failed" }

/-- C7 counterexample: the claim says a failing gallery query
(`GetExistingScreenshots`) is a non-fatal warning, but cmd main calls
`os.Exit(1)` on it: with every other oracle benign the run with a failing
gallery query exits with code 1 having done nothing, while the same run
with a healthy gallery completes. -/
theorem screenshot_gallery_failure_fatal :
    runMain c7EnvFail = (.exited 1, []) ∧ (runMain c7EnvOk).1 = .completed :=
  ⟨rfl, rfl⟩

/-- C7 (amended): a failure of the batch submit (`SubmitScreenshots`) is a
non-fatal warning: the outcome of the run and its whole event trace apart
from the logged submit failure are the same as under a successful submit.
(The gallery-query half of the original claim is refuted separately: that
failure aborts the run.) -/
theorem submit_failure_nonfatal (env : MainEnv) (e : String) :
    (runMain { env with submitRes := .error e }).1
        = (runMain { env with submitRes := .ok () }).1
    ∧ (runMain { env with submitRes := .error e }).2.filter
          (fun ev => ! ev.isSubmitLog)
        = (runMain { env with submitRes := .ok () }).2.filter
          (fun ev => ! ev.isSubmitLog) := by
  rcases hg : env.gallery with ge | gallery
  · simp only [runMain]
    exact ⟨trivial, trivial⟩
  · simp only [runMain]
    rw [show buildCache env.files = .ok (env.files.foldl buildStep []) from rfl]
    dsimp only
    have hrr : runRest { env with gallery := .ok gallery, submitRes := .error e }
          (env.files.foldl buildStep [])
        = runRest { env with gallery := .ok gallery, submitRes := .ok () }
          (env.files.foldl buildStep []) := rfl
    rcases hr : runRest { env with gallery := .ok gallery, submitRes := .ok () }
        (env.files.foldl buildStep []) with ⟨out, evs⟩
    rw [hrr, hr]
    dsimp only
    constructor
    · rfl
    · rw [List.filter_append, List.filter_append, submitEvents_filter, submitEvents_filter]
      rfl

end FFB
